import Mathlib

/-!
# Verification of the template-spreading mapping engine

Shallow embedding of the core mapping engine of this repository
(`src/agent/main.py`): the tabular normalizer `excel_to_json`, the template
rehydrator `json_to_excel_template`, the schema synthesizer
`create_simplified_schema`, the extraction adapter
`generate_solution_from_template_and_pdfs` and its placeholder fallback
`_generate_random_placeholder`.

Modeling conventions:
* A spreadsheet is a grid of optional scalar cells; a missing cell models a
  pandas `NaN` / openpyxl `None`.  Grids are the state as read from the file:
  `pandas.read_excel` turns empty-string cells into `NaN`, so grids are the
  post-read view shared by both readers.
* Scalars are Python `int`, `float` or `str`.  Floats are modeled as exact
  short decimals (sign, integer part, fractional digits); binary floating
  point rounding, exponents, infinities and NaN payloads are out of scope,
  which covers every value the engine manufactures (years, `round(x, 2)`).
* Python `dict` construction is modeled by association lists with
  update-in-place-or-append insertion, which reproduces CPython's key order
  and last-write-wins semantics.  Iteration over the `set` of sample column
  names is modeled by first-occurrence key order of the sample row.
* The generative-model client is external; its behavior is an input of the
  embedded adapter (raise / empty body / malformed body / parsed items), and
  the pseudo-random stream backing `random.uniform` is an input stream of
  naturals.
-/

/-- Decimal model of a Python float: sign, integer part and fractional digit
characters (canonical form has no trailing zero digits, mirroring `str`'s
shortest output for the short decimals in scope). -/
structure PyFloat where
  neg : Bool
  ip : Nat
  frac : List Char
deriving DecidableEq, Repr

/-- Numeric value of a decimal digit character. -/
def digitVal (c : Char) : Nat := c.toNat - 48

/-- ASCII whitespace, the fragment of Python `str.strip`'s whitespace class
that can occur here. -/
def isPySpace (c : Char) : Bool :=
  c == ' ' || c == '\t' || c == '\n' || c == '\r'

/-- Python `s.strip()` (ASCII whitespace). -/
def pyStrip (s : String) : String :=
  String.mk (((s.toList.dropWhile isPySpace).reverse.dropWhile isPySpace).reverse)

/-- Python `s.lower()` (ASCII letters; the engine compares row labels). -/
def pyLower (s : String) : String :=
  String.mk (s.toList.map (fun c =>
    if 65 ≤ c.toNat && c.toNat ≤ 90 then Char.ofNat (c.toNat + 32) else c))

/-- Value of a digit string read most-significant first. -/
def digitsVal (l : List Char) : Nat := l.foldl (fun a c => a * 10 + digitVal c) 0

/-- Drop the trailing zero digits of a fractional digit list. -/
def stripTrailZeros (l : List Char) : List Char :=
  (l.reverse.dropWhile (fun c => c == '0')).reverse

/-- The fragment of Python `float(s)` string parsing the engine exercises:
an optional sign and decimal digits with an optional fractional part.
Returns `none` where `float` raises `ValueError`.  (Exponents, infinities
and underscore separators never occur in this pipeline.) -/
def parsePyFloat (s : String) : Option PyFloat :=
  let t := (pyStrip s).toList
  let neg : Bool := t.head? == some '-'
  let t2 := if t.head? == some '-' || t.head? == some '+' then t.tail else t
  let ipart := t2.takeWhile Char.isDigit
  let rest := t2.dropWhile Char.isDigit
  match rest with
  | [] => if ipart.isEmpty then none else some ⟨neg, digitsVal ipart, []⟩
  | '.' :: fpart =>
      if fpart.all Char.isDigit && !(ipart.isEmpty && fpart.isEmpty) then
        some ⟨neg, digitsVal ipart, stripTrailZeros fpart⟩
      else none
  | _ => none

/-- Python `str` of a float in the decimal model: integral values print with
a trailing `.0` exactly as Python prints floats. -/
def floatStr (p : PyFloat) : String :=
  (if p.neg then "-" else "") ++ Nat.repr p.ip ++ "." ++
    (if p.frac.isEmpty then "0" else String.mk p.frac)

/-- The float a Python `int` converts to. -/
def pyFloatOfInt (n : Int) : PyFloat := ⟨n < 0, n.natAbs, []⟩

/-- A scalar value of a cell or of a JSON record: Python int, float or str. -/
inductive Val
  | int (n : Int)
  | float (f : PyFloat)
  | str (s : String)
deriving DecidableEq, Repr

/-- Python `str()` on a scalar. -/
def pyStr : Val → String
  | .int n => Int.repr n
  | .float f => floatStr f
  | .str s => s

/-- Python `float()` on a scalar, `none` where it raises. -/
def pyFloatOf : Val → Option PyFloat
  | .int n => some (pyFloatOfInt n)
  | .float f => some f
  | .str s => parsePyFloat s

/-- A cell of a spreadsheet: a scalar or missing (`NaN` / `None`). -/
abbrev Cell := Option Val

/-- An in-memory spreadsheet: a list of rows of cells (0-based; the source's
1-based `openpyxl` indices are shifted down by one). -/
abbrev Grid := List (List Cell)

/-- Number of rows (`ws.max_row`). -/
def nrows (g : Grid) : Nat := g.length

/-- Number of columns (`ws.max_column`): the widest row. -/
def ncols (g : Grid) : Nat := g.foldr (fun row m => max row.length m) 0

/-- Read a cell; positions outside the grid read as missing. -/
def cellAt (g : Grid) (r c : Nat) : Cell := (g.getD r []).getD c none

/-- Write one cell of a row, padding the row with missing cells if needed
(`ws.cell(...).value = x`). -/
def setRowCell (row : List Cell) (c : Nat) (v : Cell) : List Cell :=
  (row ++ List.replicate (c + 1 - row.length) none).set c v

/-- Write one cell of the grid.  The engine only ever writes inside the
existing rows of the template, so rows are never appended. -/
def setCell (g : Grid) (r c : Nat) (v : Cell) : Grid :=
  g.set r (setRowCell (g.getD r []) c v)

/-- Python dict assignment `d[k] = v`: update in place if the key is
present (keeping its position), else append. -/
def dictInsert [BEq κ] (d : List (κ × α)) (k : κ) (v : α) : List (κ × α) :=
  if d.any (fun p => p.1 == k) then
    d.map (fun p => if p.1 == k then (k, v) else p)
  else d ++ [(k, v)]

/-- Python dict lookup. -/
def dictLookup [BEq κ] (d : List (κ × α)) (k : κ) : Option α :=
  (d.find? (fun p => p.1 == k)).map Prod.snd

/-- Key list of a dict, in iteration order. -/
def dictKeys (d : List (κ × α)) : List κ := d.map Prod.fst

/-- A row value of a normalized record: a non-mapping scalar (possibly
Python `None`) or a mapping from column names to nullable scalars. -/
inductive RowVal
  | scalar (v : Cell)
  | obj (entries : List (String × Cell))
deriving DecidableEq, Repr

/-- A normalized record: row identifier to row value, in dict order. -/
abbrev Record := List (String × RowVal)

/-! ## `excel_to_json` (tabular normalizer, src/agent/main.py lines 64-133) -/

/-- A row survives `df.dropna(how='all')` when some cell is present. -/
def rowNonEmpty (row : List Cell) : Bool := row.any (fun c => !c.isNone)

/-- Pad a row to the width of the rectangular pandas frame. -/
def padRow (w : Nat) (row : List Cell) : List Cell :=
  row ++ List.replicate (w - row.length) none

/-- The rows kept by `df.dropna(how='all')`. -/
def keptRowsOf (g : Grid) : List (List Cell) :=
  (g.map (padRow (ncols g))).filter rowNonEmpty

/-- The column positions kept by `df.dropna(axis=1, how='all')`. -/
def keptColsOf (g : Grid) : List Nat :=
  (List.range (ncols g)).filter
    (fun c => (keptRowsOf g).any (fun row => !(row.getD c none).isNone))

/-- The cleaned frame: kept rows restricted to kept columns. -/
def cleanGrid (g : Grid) : List (List Cell) :=
  (keptRowsOf g).map (fun row => (keptColsOf g).map (fun c => row.getD c none))

/-- `str(col_name)` on a header label; a missing header label is pandas
`NaN`, whose `str` is `"nan"`. -/
def colHeaderKey (h : Cell) : String :=
  match h with
  | none => "nan"
  | some v => pyStr v

/-- `str(row_name) if pd.notna(row_name) else ""` on a row label. -/
def idKey (c : Cell) : String :=
  match c with
  | some v => pyStr v
  | none => ""

/-- One row's dict: `row_dict[str(col_name)] = value` over the data columns
(all cleaned columns after the index column). -/
def mkRowDict (headers row : List Cell) : List (String × Cell) :=
  ((List.range headers.length).drop 1).foldl
    (fun d c => dictInsert d (colHeaderKey (headers.getD c none)) (row.getD c none)) []

/-- Numeric equality of the decimal float model, with `-0.0 == 0.0`. -/
def pyFloatEqNum (a b : PyFloat) : Bool :=
  a.ip == b.ip && a.frac == b.frac && (a.neg == b.neg || (a.ip == 0 && a.frac.isEmpty))

/-- Python `==` on scalars, as pandas label lookup uses it: numbers compare
numerically across `int`/`float`, strings compare exactly, and a number
never equals a string. -/
def valEqPy : Val → Val → Bool
  | Val.int a, Val.int b => a == b
  | Val.str a, Val.str b => a == b
  | Val.float a, Val.float b => pyFloatEqNum a b
  | Val.int a, Val.float b => pyFloatEqNum (pyFloatOfInt a) b
  | Val.float a, Val.int b => pyFloatEqNum a (pyFloatOfInt b)
  | _, _ => false

/-- pandas column-label matching for `df[label]`: missing (`NaN`) labels
match each other (`Index.get_loc` matches them via `isna`), present labels
compare by Python `==`. -/
def labelEq : Cell → Cell → Bool
  | none, none => true
  | some a, some b => valEqPy a b
  | _, _ => false

/-- Whether `df.set_index(df.columns[0])` raises: the first header label
reoccurs among the remaining header labels, so `df[label]` selects more
than one column and pandas raises `ValueError` (index data must be
one-dimensional). -/
def dupFirstLabel (headers : List Cell) : Bool :=
  match headers with
  | [] => false
  | h0 :: rest => rest.any (labelEq h0)

/-- `excel_to_json`: normalize a grid to a row-keyed record.  Header row is
the first cleaned row, row identifiers the first cleaned column; rows whose
identifier is missing are dropped.  The result is `none` when the function
raises: `set_index` on the first header label fails with `ValueError` when
that label is duplicated among the header labels. -/
def excel_to_json (g : Grid) : Option Record :=
  match cleanGrid g with
  | [] => some []
  | headers :: dataRows =>
    if headers.isEmpty then some [] else
    if dupFirstLabel headers then none else
    some ((dataRows.filter (fun row => !(row.getD 0 none).isNone)).foldl
      (fun res row =>
        dictInsert res (idKey (row.getD 0 none)) (RowVal.obj (mkRowDict headers row)))
      [])

/-! ## `json_to_excel_template` (template rehydrator, lines 136-273) -/

/-- `v is not None and str(v).strip() != ''`. -/
def cellNonBlank (c : Cell) : Bool :=
  match c with
  | none => false
  | some v => !(pyStrip (pyStr v) == "")

/-- Header row detection: first row with any non-blank cell. -/
def headerRowIdx (g : Grid) : Option Nat :=
  (List.range (nrows g)).find?
    (fun r => (List.range (ncols g)).any (fun c => cellNonBlank (cellAt g r c)))

/-- Row-name column detection: column 0 if any of the nine rows after the
header has a value there, else column 1. -/
def rowNameColIdx (g : Grid) (hdr : Nat) : Nat :=
  if (List.range (nrows g)).any
      (fun r => decide (hdr < r) && decide (r ≤ hdr + 9) && !(cellAt g r 0).isNone)
  then 0 else 1

/-- Header cells after the row-name column whose value is non-blank,
with their column positions. -/
def columnHeaders (g : Grid) (hdr rnc : Nat) : List (Nat × Val) :=
  ((List.range (ncols g)).filter (fun c => decide (rnc < c))).filterMap
    (fun c =>
      match cellAt g hdr c with
      | some v => if !(pyStrip (pyStr v) == "") then some (c, v) else none
      | none => none)

/-- `normalize_col_name`: `str(float(value))` when `float` succeeds, else
`str(value).strip()`. -/
def normalize_col_name (v : Val) : String :=
  match pyFloatOf v with
  | some f => floatStr f
  | none => pyStrip (pyStr v)

/-- Python `s.replace('.0', '')` on the character list: remove every
occurrence of the two-character pattern, scanning left to right. -/
def replaceDotZeroL : List Char → List Char
  | '.' :: '0' :: t => replaceDotZeroL t
  | c :: t => c :: replaceDotZeroL t
  | [] => []

/-- Python `s.replace('.0', '')`. -/
def replaceDotZero (s : String) : String := String.mk (replaceDotZeroL s.toList)

/-- The column matching test of the rehydrator on normalized names: exact
equality, else equality after removing every `.0` occurrence on both sides. -/
def colNamesMatch (a b : String) : Bool :=
  a == b || replaceDotZero a == replaceDotZero b

/-- The record-side column names: keys of the first record value when it is
a mapping, else none (`set()`). -/
def json_col_names (json_data : Record) : List String :=
  match json_data with
  | (_, RowVal.obj m) :: _ => dictKeys m
  | _ => []

/-- `json_to_col`: for each template header column in order, bind the first
record column name it matches to that column position (later columns
overwrite the binding). -/
def json_to_col (g : Grid) (hdr rnc : Nat) (names : List String) : List (String × Nat) :=
  (columnHeaders g hdr rnc).foldl
    (fun m p =>
      match names.find?
          (fun k => colNamesMatch (normalize_col_name p.2) (normalize_col_name (.str k))) with
      | some k => dictInsert m k p.1
      | none => m)
    []

/-- `row_name_to_row_idx`: trimmed row-name cell to row position, for rows
below the header with a non-blank cell in the row-name column
(last write wins on duplicates). -/
def row_name_to_row_idx (g : Grid) (hdr rnc : Nat) : List (String × Nat) :=
  (List.range (nrows g)).foldl
    (fun m r =>
      if hdr < r then
        match cellAt g r rnc with
        | some v => if !(pyStrip (pyStr v) == "") then dictInsert m (pyStrip (pyStr v)) r else m
        | none => m
      else m)
    []

/-- Resolve a record row name to a template row: exact dict lookup first,
then the first case-insensitive match in table order. -/
def resolveRowIdx (tbl : List (String × Nat)) (k : String) : Option Nat :=
  match dictLookup tbl k with
  | some r => some r
  | none => (tbl.find? (fun p => pyLower k == pyLower p.1)).map Prod.snd

/-- Write one record row into template row `r`: cells whose column name is
bound by `colMap` are overwritten (a null value clears the cell), others
are skipped. -/
def writeRow (colMap : List (String × Nat)) (r : Nat) (m : List (String × Cell))
    (g : Grid) : Grid :=
  m.foldl
    (fun acc p =>
      match dictLookup colMap p.1 with
      | some c => setCell acc r c p.2
      | none => acc)
    g

/-- `json_to_excel_template`: fill a record back into the template grid.
Empty record or no detectable header: the template is returned verbatim
(the source copies the file).  Non-mapping rows and unresolved rows are
skipped. -/
def json_to_excel_template (json_data : Record) (g : Grid) : Grid :=
  if json_data.isEmpty then g else
  match headerRowIdx g with
  | none => g
  | some hdr =>
    let rnc := rowNameColIdx g hdr
    let colMap := json_to_col g hdr rnc (json_col_names json_data)
    let tbl := row_name_to_row_idx g hdr rnc
    json_data.foldl
      (fun acc p =>
        match p.2 with
        | RowVal.scalar _ => acc
        | RowVal.obj m =>
          match resolveRowIdx tbl p.1 with
          | none => acc
          | some r => writeRow colMap r m acc)
      g

/-! ## `create_simplified_schema` (schema synthesizer, lines 276-339) -/

/-- A JSON value, for the literal schema the synthesizer builds. -/
inductive J
  | str (s : String)
  | bool (b : Bool)
  | obj (m : List (String × J))
  | arr (l : List J)

/-- The first mapping-valued entry of the record, in insertion order. -/
def firstObjEntry : Record → Option (List (String × Cell))
  | [] => none
  | (_, RowVal.obj m) :: _ => some m
  | _ :: rest => firstObjEntry rest

/-- The per-column property: nullable NUMBER. -/
def numberNullable : J :=
  J.obj [("type", J.str "NUMBER"), ("nullable", J.bool true)]

/-- The schema of one row item. -/
def row_item_schema (colProps : List (String × J)) (colReq : List String) : J :=
  J.obj [("type", J.str "OBJECT"),
         ("properties", J.obj
           [("row_name", J.obj [("type", J.str "STRING"),
              ("description", J.str "The exact name of the row as requested.")]),
            ("values", J.obj [("type", J.str "OBJECT"),
              ("properties", J.obj colProps),
              ("required", J.arr (colReq.map J.str)),
              ("nullable", J.bool true)])]),
         ("required", J.arr [J.str "row_name", J.str "values"])]

/-- The fallback schema when no mapping-valued row exists. -/
def openSchema : J :=
  J.obj [("type", J.str "OBJECT"), ("properties", J.obj []), ("nullable", J.bool true)]

/-- `create_simplified_schema`: column structure from the first
mapping-valued row; open schema if there is none. -/
def create_simplified_schema (template_json : Record) : J :=
  match firstObjEntry template_json with
  | none => openSchema
  | some m =>
    J.obj [("type", J.str "OBJECT"),
           ("properties", J.obj
             [("financial_data", J.obj [("type", J.str "ARRAY"),
                ("items", row_item_schema
                  ((dictKeys m).map (fun k => (k, numberNullable)))
                  (dictKeys m))])]),
           ("required", J.arr [J.str "financial_data"])]

/-! ## `_generate_random_placeholder` (lines 452-470) -/

/-- One draw of `round(random.uniform(0, 1000000), 2)`: the i-th value of
the pseudo-random stream reduced to a two-decimal value in [0, 1000000]. -/
def randDraw (rng : Nat → Nat) (i : Nat) : PyFloat :=
  let d := rng i % 100000001
  ⟨false, d / 100, stripTrailZeros [Nat.digitChar (d % 100 / 10), Nat.digitChar (d % 10)]⟩

/-- `_generate_random_placeholder`: non-mapping rows pass through; in
mapping rows every null cell receives the next random draw and every
non-null cell its original value. -/
def generate_random_placeholder (rng : Nat → Nat) (template_json : Record) : Record :=
  (template_json.foldl
    (fun (st : Record × Nat) p =>
      match p.2 with
      | RowVal.scalar v => (dictInsert st.1 p.1 (RowVal.scalar v), st.2)
      | RowVal.obj m =>
        let filled := m.foldl
          (fun (st2 : List (String × Cell) × Nat) q =>
            match q.2 with
            | none => (dictInsert st2.1 q.1 (some (Val.float (randDraw rng st2.2))), st2.2 + 1)
            | some v => (dictInsert st2.1 q.1 (some v), st2.2))
          ([], st.2)
        (dictInsert st.1 p.1 (RowVal.obj filled.1), filled.2))
    ([], 0)).1

/-! ## `generate_solution_from_template_and_pdfs` (extraction adapter,
lines 342-449) -/

/-- One item of the model's `financial_data` list: `item.get("row_name")`
and `item.get("values")` (a missing key reads as null). -/
structure RespItem where
  row_name : Option String
  values : RowVal

/-- The outcome of the single model interaction, an input of the adapter:
the call raises; the response body is falsy (`None` or empty); the body is
non-empty but handling it raises (`json.loads` or the reconciliation); or
it parses to a list of row items. -/
inductive ModelInteraction
  | callRaises
  | emptyBody
  | parseRaises
  | parsed (items : List RespItem)

/-- The adapter's result, instrumented with the number of model calls made
and whether the placeholder fallback produced the record. -/
structure AdapterResult where
  record : Record
  modelCalls : Nat
  usedFallback : Bool

/-- The all-null row synthesized for a template row the model omitted:
null-filled columns for a mapping row, plain null otherwise. -/
def allNullRow : RowVal → RowVal
  | RowVal.obj m => RowVal.obj (m.map (fun q => (q.1, (none : Cell))))
  | _ => RowVal.scalar none

/-- The output row for one template row: the model's `values` verbatim when
its `row_name` is found in the lookup, else the all-null row. -/
def reconRow (row_map : List (Option String × RowVal)) (p : String × RowVal) : RowVal :=
  match dictLookup row_map (some p.1) with
  | some v => v
  | none => allNullRow p.2

/-- The lookup by `row_name` built from the model's item list
(later duplicates overwrite). -/
def rowMapOf (items : List RespItem) : List (Option String × RowVal) :=
  items.foldl (fun m it => dictInsert m it.row_name it.values) []

/-- The reconciliation of a parsed response onto the template: one output
row per template row, keyed and ordered by the template. -/
def reconcile (items : List RespItem) (template_json : Record) : Record :=
  template_json.foldl (fun res p => dictInsert res p.1 (reconRow (rowMapOf items) p)) []

/-- `generate_solution_from_template_and_pdfs`: fall back to the placeholder
when no API key is configured, the client library is unavailable, no PDF
data is supplied, the call or its response handling raises, or the response
body is empty; otherwise reconcile the parsed response onto the template.
Exactly one model call is made, and only past the three precondition
checks. -/
def generate_solution_from_template_and_pdfs (hasApiKey genaiAvailable : Bool)
    (rng : Nat → Nat) (template_json : Record) (pdf_data : List (String × String))
    (inter : ModelInteraction) : AdapterResult :=
  if !hasApiKey then ⟨generate_random_placeholder rng template_json, 0, true⟩
  else if !genaiAvailable then ⟨generate_random_placeholder rng template_json, 0, true⟩
  else if pdf_data.isEmpty then ⟨generate_random_placeholder rng template_json, 0, true⟩
  else
    match inter with
    | .callRaises => ⟨generate_random_placeholder rng template_json, 1, true⟩
    | .parseRaises => ⟨generate_random_placeholder rng template_json, 1, true⟩
    | .emptyBody => ⟨generate_random_placeholder rng template_json, 1, true⟩
    | .parsed items => ⟨reconcile items template_json, 1, false⟩

/-! ## Dictionary lemmas -/

theorem dictKeys_dictInsert [BEq κ] [LawfulBEq κ] (d : List (κ × α)) (k : κ) (v : α) :
    dictKeys (dictInsert d k v) = if d.any (fun p => p.1 == k) then dictKeys d
      else dictKeys d ++ [k] := by
  unfold dictInsert dictKeys
  by_cases h : d.any (fun p => p.1 == k) = true
  · simp only [h, if_true, List.map_map]
    apply List.map_congr_left
    intro p _
    by_cases hp : p.1 == k
    · simp only [Function.comp_apply, hp, if_true]
      exact (eq_of_beq hp).symm
    · simp [Function.comp_apply, hp]
  · simp [h]

theorem mem_dictKeys_dictInsert [BEq κ] [LawfulBEq κ] (d : List (κ × α)) (k a : κ) (v : α) :
    a ∈ dictKeys (dictInsert d k v) ↔ a ∈ dictKeys d ∨ a = k := by
  rw [dictKeys_dictInsert]
  by_cases h : d.any (fun p => p.1 == k) = true
  · simp only [h, if_true]
    constructor
    · exact Or.inl
    · rintro (ha | rfl)
      · exact ha
      · rcases List.any_eq_true.mp h with ⟨p, hp, hpk⟩
        have : p.1 = a := eq_of_beq hpk
        exact this ▸ List.mem_map_of_mem Prod.fst hp
  · simp [h, or_comm]

theorem findq_congr {l : List α} {p q : α → Bool} (h : ∀ a ∈ l, p a = q a) :
    l.find? p = l.find? q := by
  induction l with
  | nil => rfl
  | cons a t ih =>
    rw [List.find?_cons, List.find?_cons, h a (List.mem_cons_self a t),
      ih (fun x hx => h x (List.mem_cons_of_mem a hx))]

theorem dictLookup_dictInsert_self [BEq κ] [LawfulBEq κ] (d : List (κ × α)) (k : κ) (v : α) :
    dictLookup (dictInsert d k v) k = some v := by
  unfold dictInsert dictLookup
  by_cases h : d.any (fun p => p.1 == k) = true
  · simp only [h, if_true, List.find?_map]
    have hcong : d.find? ((fun p : κ × α => p.1 == k) ∘ (fun p => if p.1 == k then (k, v) else p)) =
        d.find? (fun p => p.1 == k) := by
      apply findq_congr
      intro p _
      by_cases hp : (p.1 == k) = true
      · simp [Function.comp_apply, hp]
      · simp [Function.comp_apply, hp]
    rw [hcong]
    rcases List.any_eq_true.mp h with ⟨p, hp, hpk⟩
    have hfind : (d.find? (fun p => p.1 == k)).isSome := by
      rw [List.find?_isSome]
      exact ⟨p, hp, hpk⟩
    rcases Option.isSome_iff_exists.mp hfind with ⟨q, hq⟩
    have hqk := List.find?_some hq
    simp only [] at hqk
    rw [hq]
    simp [hqk]
  · simp only [h, if_false, List.find?_append]
    have hnone : d.find? (fun p : κ × α => p.1 == k) = none := by
      rw [List.find?_eq_none]
      intro x hx hxk
      exact h (List.any_eq_true.mpr ⟨x, hx, hxk⟩)
    simp [hnone]

theorem dictLookup_dictInsert_ne [BEq κ] [LawfulBEq κ] (d : List (κ × α)) (k a : κ) (v : α)
    (hne : a ≠ k) : dictLookup (dictInsert d k v) a = dictLookup d a := by
  have hka : (k == a) = false := beq_eq_false_iff_ne.mpr (Ne.symm hne)
  unfold dictInsert dictLookup
  by_cases h : d.any (fun p => p.1 == k) = true
  · simp only [h, if_true, List.find?_map]
    have hcong : d.find? ((fun p : κ × α => p.1 == a) ∘ (fun p => if p.1 == k then (k, v) else p)) =
        d.find? (fun p => p.1 == a) := by
      apply findq_congr
      intro p _
      by_cases hp : (p.1 == k) = true
      · have hpk : p.1 = k := eq_of_beq hp
        simp [Function.comp_apply, hp, hka, hpk]
      · simp [Function.comp_apply, hp]
    rw [hcong]
    cases hf : d.find? (fun p : κ × α => p.1 == a) with
    | none => simp
    | some q =>
      have hqa := List.find?_some hf
      simp only [] at hqa
      have hqk : (q.1 == k) = false := by
        rw [eq_of_beq hqa]
        exact beq_eq_false_iff_ne.mpr hne
      simp [hqk]
  · simp only [h, if_false, List.find?_append]
    have hsing : ([(k, v)].find? (fun p : κ × α => p.1 == a)) = none := by
      simp [hka]
    cases hf : d.find? (fun p : κ × α => p.1 == a) <;> simp [hsing, Option.or, hf]

/-- Whether a row value is a mapping (`isinstance(row_data, dict)`). -/
def isObjRow : RowVal → Bool
  | RowVal.obj _ => true
  | _ => false

theorem mem_dictKeys_foldl_dictInsert [BEq κ] [LawfulBEq κ] {β : Type _}
    (l : List (κ × β)) (G : List (κ × α) → κ × β → α) (init : List (κ × α)) (a : κ) :
    a ∈ dictKeys (l.foldl (fun res p => dictInsert res p.1 (G res p)) init) ↔
      a ∈ dictKeys init ∨ a ∈ l.map Prod.fst := by
  induction l generalizing init with
  | nil => simp
  | cons p t ih =>
    rw [List.foldl_cons, ih, mem_dictKeys_dictInsert]
    simp [or_assoc]

/-- C1: on the extraction adapter's success path (credential and client
available, documents supplied, response parsed), the returned record has
exactly the same set of row-identifier keys as the input template-derived
record, whatever rows the model returned or omitted. -/
theorem extraction_success_same_row_set (rng : Nat → Nat) (template_json : Record)
    (doc : String × String) (docs : List (String × String)) (items : List RespItem)
    (k : String) :
    k ∈ dictKeys (generate_solution_from_template_and_pdfs true true rng template_json
        (doc :: docs) (ModelInteraction.parsed items)).record ↔
      k ∈ dictKeys template_json := by
  have hrec : (generate_solution_from_template_and_pdfs true true rng template_json
      (doc :: docs) (ModelInteraction.parsed items)).record = reconcile items template_json := rfl
  rw [hrec]
  unfold reconcile
  rw [mem_dictKeys_foldl_dictInsert (G := fun _ p => reconRow (rowMapOf items) p)]
  simp [dictKeys]

theorem firstObjEntry_eq_none (tj : Record) (h : ∀ q ∈ tj, isObjRow q.2 = false) :
    firstObjEntry tj = none := by
  induction tj with
  | nil => rfl
  | cons q t ih =>
    obtain ⟨a, w⟩ := q
    cases w with
    | scalar v => exact ih (fun x hx => h x (List.mem_cons_of_mem _ hx))
    | obj e =>
      have := h (a, RowVal.obj e) (List.mem_cons_self _ _)
      simp [isObjRow] at this

theorem firstObjEntry_append (pre : Record) (k : String) (m : List (String × Cell))
    (rest : Record) (h : ∀ q ∈ pre, isObjRow q.2 = false) :
    firstObjEntry (pre ++ (k, RowVal.obj m) :: rest) = some m := by
  induction pre with
  | nil => rfl
  | cons q t ih =>
    obtain ⟨a, w⟩ := q
    cases w with
    | scalar v => exact ih (fun x hx => h x (List.mem_cons_of_mem _ hx))
    | obj e =>
      have := h (a, RowVal.obj e) (List.mem_cons_self _ _)
      simp [isObjRow] at this

/-- C8: the schema synthesizer builds the schema from the first
mapping-valued entry of the record in insertion order — each of that
entry's column names becomes a nullable NUMBER property (and a required
name) of the row schema — and returns the empty/open schema when the
record has no mapping-valued entry at all. -/
theorem schema_from_first_mapping_entry :
    (∀ (pre : Record) (k : String) (m : List (String × Cell)) (rest : Record),
      (∀ q ∈ pre, isObjRow q.2 = false) →
      create_simplified_schema (pre ++ (k, RowVal.obj m) :: rest) =
        J.obj [("type", J.str "OBJECT"),
               ("properties", J.obj
                 [("financial_data", J.obj [("type", J.str "ARRAY"),
                    ("items", row_item_schema
                      ((dictKeys m).map (fun c => (c, numberNullable)))
                      (dictKeys m))])]),
               ("required", J.arr [J.str "financial_data"])]) ∧
    (∀ tj : Record, (∀ q ∈ tj, isObjRow q.2 = false) →
      create_simplified_schema tj = openSchema) := by
  constructor
  · intro pre k m rest h
    unfold create_simplified_schema
    rw [firstObjEntry_append pre k m rest h]
  · intro tj h
    unfold create_simplified_schema
    rw [firstObjEntry_eq_none tj h]

/-- Witness for C8 at a concrete record with a non-mapping first row. -/
theorem schema_from_first_mapping_entry_witness :
    create_simplified_schema [("note", RowVal.scalar none),
        ("Revenue", RowVal.obj [("2023", some (Val.int 100)), ("2024", none)])] =
      J.obj [("type", J.str "OBJECT"),
             ("properties", J.obj
               [("financial_data", J.obj [("type", J.str "ARRAY"),
                  ("items", row_item_schema
                    [("2023", numberNullable), ("2024", numberNullable)]
                    ["2023", "2024"])])]),
             ("required", J.arr [J.str "financial_data"])] ∧
    create_simplified_schema [("note", RowVal.scalar (some (Val.int 3)))] = openSchema := by
  constructor
  · exact schema_from_first_mapping_entry.1 [("note", RowVal.scalar none)] "Revenue"
      [("2023", some (Val.int 100)), ("2024", none)] [] (by decide)
  · exact schema_from_first_mapping_entry.2 [("note", RowVal.scalar (some (Val.int 3)))]
      (by decide)

/-! ## C4: the placeholder fallback -/

/-- Numeric value of a float in the decimal model. -/
def fracVal (l : List Char) : ℚ := l.foldr (fun c acc => ((digitVal c : ℚ) + acc) / 10) 0

/-- Numeric value of a float in the decimal model. -/
def PyFloat.toRat (p : PyFloat) : ℚ :=
  (if p.neg then -1 else 1) * ((p.ip : ℚ) + fracVal p.frac)

/-- Structural form of the inner placeholder fold: fill nulls left to right,
threading the draw counter. -/
def fillRowAux (rng : Nat → Nat) : List (String × Cell) → Nat → List (String × Cell) × Nat
  | [], ctr => ([], ctr)
  | (k, none) :: t, ctr =>
      let r := fillRowAux rng t (ctr + 1)
      ((k, some (Val.float (randDraw rng ctr))) :: r.1, r.2)
  | (k, some v) :: t, ctr =>
      let r := fillRowAux rng t ctr
      ((k, some v) :: r.1, r.2)

/-- Structural form of the outer placeholder fold. -/
def placeholderAux (rng : Nat → Nat) : Record → Nat → Record × Nat
  | [], ctr => ([], ctr)
  | (k, RowVal.scalar v) :: t, ctr =>
      let r := placeholderAux rng t ctr
      ((k, RowVal.scalar v) :: r.1, r.2)
  | (k, RowVal.obj m) :: t, ctr =>
      let fr := fillRowAux rng m ctr
      let r := placeholderAux rng t fr.2
      ((k, RowVal.obj fr.1) :: r.1, r.2)

theorem dictInsert_of_not_mem [BEq κ] [LawfulBEq κ] (d : List (κ × α)) (k : κ) (v : α)
    (h : k ∉ dictKeys d) : dictInsert d k v = d ++ [(k, v)] := by
  unfold dictInsert
  have : d.any (fun p => p.1 == k) = false := by
    rw [List.any_eq_false]
    intro p hp hpk
    exact h ((eq_of_beq hpk) ▸ List.mem_map_of_mem Prod.fst hp)
  simp [this]

theorem fillRow_foldl_eq (rng : Nat → Nat) (m : List (String × Cell))
    (acc : List (String × Cell)) (ctr : Nat)
    (hdisj : ∀ a ∈ dictKeys acc, a ∉ dictKeys m) (hnd : (dictKeys m).Nodup) :
    m.foldl (fun (st2 : List (String × Cell) × Nat) q =>
      match q.2 with
      | none => (dictInsert st2.1 q.1 (some (Val.float (randDraw rng st2.2))), st2.2 + 1)
      | some v => (dictInsert st2.1 q.1 (some v), st2.2)) (acc, ctr) =
    (acc ++ (fillRowAux rng m ctr).1, (fillRowAux rng m ctr).2) := by
  induction m generalizing acc ctr with
  | nil => simp [fillRowAux]
  | cons q t ih =>
    obtain ⟨k, c⟩ := q
    have hk : k ∉ dictKeys acc := by
      intro hmem
      exact hdisj k hmem (List.mem_cons_self _ _)
    have hknd : k ∉ dictKeys t ∧ (dictKeys t).Nodup := List.nodup_cons.mp hnd
    have hdisj' : ∀ v' : Cell, ∀ a ∈ dictKeys (acc ++ [(k, v')]), a ∉ dictKeys t := by
      intro v' a ha hat
      rw [dictKeys, List.map_append] at ha
      rcases List.mem_append.mp ha with h1 | h1
      · exact hdisj a h1 (List.mem_cons_of_mem _ hat)
      · simp at h1
        exact hknd.1 (h1 ▸ hat)
    cases c with
    | none =>
      simp only [List.foldl_cons]
      rw [show (dictInsert acc k (some (Val.float (randDraw rng ctr))), ctr + 1) =
          ((acc ++ [(k, some (Val.float (randDraw rng ctr)))], ctr + 1) :
            List (String × Cell) × Nat) by
        rw [dictInsert_of_not_mem acc k _ hk]]
      rw [ih _ _ (hdisj' _) hknd.2, fillRowAux]
      simp
    | some v =>
      simp only [List.foldl_cons]
      rw [show (dictInsert acc k (some v), ctr) =
          ((acc ++ [(k, some v)], ctr) : List (String × Cell) × Nat) by
        rw [dictInsert_of_not_mem acc k _ hk]]
      rw [ih _ _ (hdisj' _) hknd.2, fillRowAux]
      simp

/-- The column-name keys of a mapping row are distinct (always true of a
record that came from a Python dict). -/
def objKeysNodup : RowVal → Prop
  | RowVal.obj m => (dictKeys m).Nodup
  | _ => True

instance : DecidablePred objKeysNodup := by
  intro w
  cases w with
  | scalar v => exact isTrue trivial
  | obj m => exact (inferInstance : Decidable ((dictKeys m).Nodup))

theorem placeholder_foldl_eq (rng : Nat → Nat) (tj : Record) (acc : Record) (ctr : Nat)
    (hdisj : ∀ a ∈ dictKeys acc, a ∉ dictKeys tj) (hnd : (dictKeys tj).Nodup)
    (hrows : ∀ p ∈ tj, objKeysNodup p.2) :
    tj.foldl
      (fun (st : Record × Nat) p =>
        match p.2 with
        | RowVal.scalar v => (dictInsert st.1 p.1 (RowVal.scalar v), st.2)
        | RowVal.obj m =>
          let filled := m.foldl
            (fun (st2 : List (String × Cell) × Nat) q =>
              match q.2 with
              | none => (dictInsert st2.1 q.1 (some (Val.float (randDraw rng st2.2))), st2.2 + 1)
              | some v => (dictInsert st2.1 q.1 (some v), st2.2))
            ([], st.2)
          (dictInsert st.1 p.1 (RowVal.obj filled.1), filled.2)) (acc, ctr) =
    (acc ++ (placeholderAux rng tj ctr).1, (placeholderAux rng tj ctr).2) := by
  induction tj generalizing acc ctr with
  | nil => simp [placeholderAux]
  | cons p t ih =>
    obtain ⟨k, w⟩ := p
    have hk : k ∉ dictKeys acc := by
      intro hmem
      exact hdisj k hmem (List.mem_cons_self _ _)
    have hknd : k ∉ dictKeys t ∧ (dictKeys t).Nodup := List.nodup_cons.mp hnd
    have hdisj' : ∀ w' : RowVal, ∀ a ∈ dictKeys (acc ++ [(k, w')]), a ∉ dictKeys t := by
      intro w' a ha hat
      rw [dictKeys, List.map_append] at ha
      rcases List.mem_append.mp ha with h1 | h1
      · exact hdisj a h1 (List.mem_cons_of_mem _ hat)
      · simp at h1
        exact hknd.1 (h1 ▸ hat)
    have hrows' : ∀ q ∈ t, objKeysNodup q.2 :=
      fun q hq => hrows q (List.mem_cons_of_mem _ hq)
    cases w with
    | scalar v =>
      simp only [List.foldl_cons]
      rw [show (dictInsert acc k (RowVal.scalar v), ctr) =
          ((acc ++ [(k, RowVal.scalar v)], ctr) : Record × Nat) by
        rw [dictInsert_of_not_mem acc k _ hk]]
      rw [ih _ _ (hdisj' _) hknd.2 hrows', placeholderAux]
      simp
    | obj m =>
      have hmnd : (dictKeys m).Nodup := hrows (k, RowVal.obj m) (List.mem_cons_self _ _)
      simp only [List.foldl_cons]
      rw [fillRow_foldl_eq rng m [] ctr (by simp [dictKeys]) hmnd]
      rw [show (dictInsert acc k (RowVal.obj ([] ++ (fillRowAux rng m ctr).1)),
            (fillRowAux rng m ctr).2) =
          ((acc ++ [(k, RowVal.obj (fillRowAux rng m ctr).1)], (fillRowAux rng m ctr).2) :
            Record × Nat) by
        rw [List.nil_append, dictInsert_of_not_mem acc k _ hk]]
      rw [ih _ _ (hdisj' _) hknd.2 hrows', placeholderAux]
      simp

theorem generate_random_placeholder_eq_aux (rng : Nat → Nat) (tj : Record)
    (hnd : (dictKeys tj).Nodup) (hrows : ∀ p ∈ tj, objKeysNodup p.2) :
    generate_random_placeholder rng tj = (placeholderAux rng tj 0).1 := by
  unfold generate_random_placeholder
  rw [placeholder_foldl_eq rng tj [] 0 (by simp [dictKeys]) hnd hrows]
  simp

theorem fracVal_nonneg (l : List Char) : 0 ≤ fracVal l := by
  induction l with
  | nil => simp [fracVal]
  | cons c t ih =>
    show 0 ≤ ((digitVal c : ℚ) + fracVal t) / 10
    have h0 : (0 : ℚ) ≤ (digitVal c : ℚ) := by positivity
    have := ih
    unfold fracVal at this ⊢
    positivity

theorem fracVal_lt_one (l : List Char) (h : ∀ c ∈ l, digitVal c ≤ 9) : fracVal l < 1 := by
  induction l with
  | nil => simp [fracVal]
  | cons c t ih =>
    show ((digitVal c : ℚ) + fracVal t) / 10 < 1
    have h1 : (digitVal c : ℚ) ≤ 9 := by
      exact_mod_cast h c (List.mem_cons_self _ _)
    have h2 : fracVal t < 1 := ih (fun x hx => h x (List.mem_cons_of_mem _ hx))
    have : (digitVal c : ℚ) + fracVal t < 10 := by linarith
    linarith

theorem digitVal_digitChar (x : Nat) (h : x < 10) : digitVal (Nat.digitChar x) = x := by
  interval_cases x <;> decide

theorem mem_stripTrailZeros (l : List Char) (a : Char) (h : a ∈ stripTrailZeros l) : a ∈ l := by
  unfold stripTrailZeros at h
  rw [List.mem_reverse] at h
  have := (List.dropWhile_sublist (l := l.reverse) (p := fun c => c == '0')).mem h
  rwa [List.mem_reverse] at this

theorem randDraw_range (rng : Nat → Nat) (i : Nat) :
    0 ≤ (randDraw rng i).toRat ∧ (randDraw rng i).toRat ≤ 1000000 := by
  unfold randDraw PyFloat.toRat
  dsimp only
  set e := rng i % 100000001 with he
  have hub : e ≤ 100000000 := Nat.lt_succ_iff.mp (Nat.mod_lt _ (by norm_num))
  have hdig : ∀ c ∈ stripTrailZeros [Nat.digitChar (e % 100 / 10), Nat.digitChar (e % 10)],
      digitVal c ≤ 9 := by
    intro c hc
    have hmem := mem_stripTrailZeros _ _ hc
    rcases List.mem_cons.mp hmem with h1 | h1
    · rw [h1, digitVal_digitChar _ (by omega)]
      omega
    · rcases List.mem_cons.mp h1 with h2 | h2
      · rw [h2, digitVal_digitChar _ (Nat.mod_lt _ (by norm_num))]
        omega
      · cases h2
  have hfrac0 : 0 ≤ fracVal (stripTrailZeros [Nat.digitChar (e % 100 / 10), Nat.digitChar (e % 10)]) :=
    fracVal_nonneg _
  have hfrac1 : fracVal (stripTrailZeros [Nat.digitChar (e % 100 / 10), Nat.digitChar (e % 10)]) < 1 :=
    fracVal_lt_one _ hdig
  rw [if_neg Bool.false_ne_true, one_mul]
  constructor
  · have : (0 : ℚ) ≤ ((e / 100 : Nat) : ℚ) := by positivity
    linarith
  · by_cases hcap : e = 100000000
    · have h1 : e % 100 / 10 = 0 := by omega
      have h2 : e % 10 = 0 := by omega
      have h3 : e / 100 = 1000000 := by omega
      rw [h1, h2, h3]
      norm_num [show stripTrailZeros [Nat.digitChar 0, Nat.digitChar 0] = [] from rfl, fracVal]
    · have hlt : e < 100000000 := lt_of_le_of_ne hub hcap
      have hdiv : e / 100 ≤ 999999 := by omega
      have : ((e / 100 : Nat) : ℚ) ≤ 999999 := by exact_mod_cast hdiv
      linarith

/-- The cell-level contract of the placeholder fallback: same column name;
a null cell becomes a pseudo-random float in [0, 1000000], a non-null
cell keeps its value. -/
def placeholderCellOk (x y : String × Cell) : Prop :=
  y.1 = x.1 ∧
    ((x.2 = none ∧ ∃ f, y.2 = some (Val.float f) ∧ 0 ≤ f.toRat ∧ f.toRat ≤ 1000000) ∨
     (x.2 ≠ none ∧ y.2 = x.2))

/-- The row-level contract of the placeholder fallback: same row
identifier; a non-mapping row passes through unchanged, a mapping row maps
cell-by-cell under `placeholderCellOk`. -/
def placeholderRowOk (p q : String × RowVal) : Prop :=
  q.1 = p.1 ∧
    ((isObjRow p.2 = false ∧ q.2 = p.2) ∨
     (∃ m m', p.2 = RowVal.obj m ∧ q.2 = RowVal.obj m' ∧
       List.Forall₂ placeholderCellOk m m'))

theorem fillRowAux_spec (rng : Nat → Nat) (m : List (String × Cell)) (ctr : Nat) :
    List.Forall₂ placeholderCellOk m (fillRowAux rng m ctr).1 := by
  induction m generalizing ctr with
  | nil => exact List.Forall₂.nil
  | cons q t ih =>
    obtain ⟨k, c⟩ := q
    cases c with
    | none =>
      rw [fillRowAux]
      exact List.Forall₂.cons
        ⟨rfl, Or.inl ⟨rfl, randDraw rng ctr, rfl, randDraw_range rng ctr⟩⟩ (ih _)
    | some v =>
      rw [fillRowAux]
      exact List.Forall₂.cons ⟨rfl, Or.inr ⟨Option.some_ne_none v, rfl⟩⟩ (ih _)

theorem placeholderAux_spec (rng : Nat → Nat) (tj : Record) (ctr : Nat) :
    List.Forall₂ placeholderRowOk tj (placeholderAux rng tj ctr).1 := by
  induction tj generalizing ctr with
  | nil => exact List.Forall₂.nil
  | cons p t ih =>
    obtain ⟨k, w⟩ := p
    cases w with
    | scalar v =>
      rw [placeholderAux]
      exact List.Forall₂.cons ⟨rfl, Or.inl ⟨rfl, rfl⟩⟩ (ih _)
    | obj m =>
      rw [placeholderAux]
      exact List.Forall₂.cons
        ⟨rfl, Or.inr ⟨m, (fillRowAux rng m ctr).1, rfl, rfl, fillRowAux_spec rng m ctr⟩⟩ (ih _)

/-- C4: the placeholder fallback returns a record with exactly the rows of
the input in order (hence the same row-identifier set), each non-mapping
row passed through, and each mapping row with exactly the input's column
names in order (hence the same column-name set); every null cell is
replaced by a pseudo-random numeric value in [0, 1000000] and every
non-null cell keeps its input value. -/
theorem placeholder_shape_and_range (rng : Nat → Nat) (tj : Record)
    (hnd : (dictKeys tj).Nodup) (hrows : ∀ p ∈ tj, objKeysNodup p.2) :
    List.Forall₂ placeholderRowOk tj (generate_random_placeholder rng tj) := by
  rw [generate_random_placeholder_eq_aux rng tj hnd hrows]
  exact placeholderAux_spec rng tj 0

/-- Witness for C4 at a concrete record and stream. -/
theorem placeholder_shape_and_range_witness :
    List.Forall₂ placeholderRowOk
      [("Revenue", RowVal.obj [("2023", some (Val.int 100)), ("2024", none)]),
       ("note", RowVal.scalar (some (Val.str "x")))]
      (generate_random_placeholder (fun i => 37 * i + 123)
        [("Revenue", RowVal.obj [("2023", some (Val.int 100)), ("2024", none)]),
         ("note", RowVal.scalar (some (Val.str "x")))]) :=
  placeholder_shape_and_range (fun i => 37 * i + 123) _ (by decide) (by decide)

/-! ## C9 and C5: the extraction adapter -/

theorem foldl_dictInsert_eq_append [BEq κ] [LawfulBEq κ] {β γ : Type _}
    (l : List (κ × β)) (G : κ × β → γ) (acc : List (κ × γ))
    (hdisj : ∀ a ∈ dictKeys acc, a ∉ dictKeys l) (hnd : (dictKeys l).Nodup) :
    l.foldl (fun res p => dictInsert res p.1 (G p)) acc =
      acc ++ l.map (fun p => (p.1, G p)) := by
  induction l generalizing acc with
  | nil => simp
  | cons p t ih =>
    obtain ⟨k, b⟩ := p
    have hk : k ∉ dictKeys acc := by
      intro hmem
      exact hdisj k hmem (List.mem_cons_self _ _)
    have hknd : k ∉ dictKeys t ∧ (dictKeys t).Nodup := List.nodup_cons.mp hnd
    have hdisj' : ∀ a ∈ dictKeys (acc ++ [(k, G (k, b))]), a ∉ dictKeys t := by
      intro a ha hat
      rw [dictKeys, List.map_append] at ha
      rcases List.mem_append.mp ha with h1 | h1
      · exact hdisj a h1 (List.mem_cons_of_mem _ hat)
      · simp at h1
        exact hknd.1 (h1 ▸ hat)
    simp only [List.foldl_cons]
    rw [dictInsert_of_not_mem acc k _ hk, ih _ hdisj' hknd.2]
    simp

theorem rowMapOf_lookup (items : List RespItem) (k : Option String) :
    dictLookup (rowMapOf items) k =
      (items.reverse.find? (fun it => it.row_name == k)).map (fun it => it.values) := by
  induction items using List.reverseRecOn with
  | nil => rfl
  | append_singleton l it ih =>
    have hfold : rowMapOf (l ++ [it]) = dictInsert (rowMapOf l) it.row_name it.values := by
      unfold rowMapOf
      rw [List.foldl_append]
      rfl
    rw [hfold, List.reverse_append]
    by_cases hit : (it.row_name == k) = true
    · have : it.row_name = k := eq_of_beq hit
      subst this
      rw [dictLookup_dictInsert_self, List.reverse_singleton, List.singleton_append,
        show List.find? (fun it' => it'.row_name == it.row_name) (it :: l.reverse) = some it from
          List.find?_cons_of_pos _ hit]
      rfl
    · have hne : k ≠ it.row_name := fun h => hit (h ▸ beq_self_eq_true _)
      rw [dictLookup_dictInsert_ne _ _ _ _ hne, ih, List.reverse_singleton,
        List.singleton_append,
        show List.find? (fun it' => it'.row_name == k) (it :: l.reverse) =
            List.find? (fun it' => it'.row_name == k) l.reverse from
          List.find?_cons_of_neg _ hit]

/-- C9: on the adapter's success path, each output row whose name appears
as the `row_name` of some response item is that (last such) item's `values`
object taken verbatim — it may be null or have any column set — and the
all-null row of the template row's shape is synthesized exactly for the
rows the model omitted.  The whole output is characterized row by row. -/
theorem extraction_success_rows_verbatim (rng : Nat → Nat) (template_json : Record)
    (doc : String × String) (docs : List (String × String)) (items : List RespItem)
    (hnd : (dictKeys template_json).Nodup) :
    (generate_solution_from_template_and_pdfs true true rng template_json
        (doc :: docs) (ModelInteraction.parsed items)).record =
      template_json.map (fun p =>
        (p.1, match items.reverse.find? (fun it => it.row_name == some p.1) with
              | some it => it.values
              | none => allNullRow p.2)) := by
  have hrec : (generate_solution_from_template_and_pdfs true true rng template_json
      (doc :: docs) (ModelInteraction.parsed items)).record =
      reconcile items template_json := rfl
  rw [hrec]
  unfold reconcile
  rw [foldl_dictInsert_eq_append template_json (fun p => reconRow (rowMapOf items) p) []
      (by simp [dictKeys]) hnd]
  rw [List.nil_append]
  apply List.map_congr_left
  intro p _
  unfold reconRow
  rw [rowMapOf_lookup]
  cases items.reverse.find? (fun it => it.row_name == some p.1) with
  | none => rfl
  | some it => rfl

/-- Witness for C9 at a concrete template and response: the model returned
row "A" with a divergent column set, renamed row "B", and omitted row "C". -/
theorem extraction_success_rows_verbatim_witness :
    (generate_solution_from_template_and_pdfs true true (fun i => i) 
        [("A", RowVal.obj [("2023", none)]),
         ("B", RowVal.obj [("2023", some (Val.int 7))]),
         ("C", RowVal.scalar none)]
        [("doc.pdf", "text")]
        (ModelInteraction.parsed
          [⟨some "A", RowVal.obj [("other", some (Val.int 1))]⟩,
           ⟨some "b", RowVal.scalar none⟩])).record =
      [("A", RowVal.obj [("other", some (Val.int 1))]),
       ("B", RowVal.obj [("2023", (none : Cell))]),
       ("C", RowVal.scalar none)] := by
  rw [extraction_success_rows_verbatim (fun i => i) _ ("doc.pdf", "text") [] _ (by decide)]
  rfl

/-- C5: the adapter returns the placeholder-filled record exactly when no
credential is configured, the client library is unavailable, no documents
are supplied, the model call (or the handling of its response) raises, or
the response body is empty; and at most one model call is ever made — none
at all when a precondition already failed. -/
theorem adapter_fallback_exactly (hasApiKey genaiAvailable : Bool) (rng : Nat → Nat)
    (template_json : Record) (pdf_data : List (String × String))
    (inter : ModelInteraction) :
    ((generate_solution_from_template_and_pdfs hasApiKey genaiAvailable rng template_json
        pdf_data inter).usedFallback = true ↔
      (hasApiKey = false ∨ genaiAvailable = false ∨ pdf_data = [] ∨
       inter = ModelInteraction.callRaises ∨ inter = ModelInteraction.parseRaises ∨
       inter = ModelInteraction.emptyBody)) ∧
    ((generate_solution_from_template_and_pdfs hasApiKey genaiAvailable rng template_json
        pdf_data inter).usedFallback = true →
      (generate_solution_from_template_and_pdfs hasApiKey genaiAvailable rng template_json
        pdf_data inter).record = generate_random_placeholder rng template_json) ∧
    (generate_solution_from_template_and_pdfs hasApiKey genaiAvailable rng template_json
        pdf_data inter).modelCalls ≤ 1 ∧
    ((hasApiKey = false ∨ genaiAvailable = false ∨ pdf_data = []) →
      (generate_solution_from_template_and_pdfs hasApiKey genaiAvailable rng template_json
        pdf_data inter).modelCalls = 0) := by
  unfold generate_solution_from_template_and_pdfs
  cases hasApiKey <;> cases genaiAvailable <;> cases pdf_data <;> cases inter <;> try simp

/-! ## C7: normalizer edge cases -/

theorem mem_dictKeys_foldl_dictInsert_of [BEq κ] [LawfulBEq κ] {β : Type _}
    (l : List β) (K : β → κ) (V : List (κ × α) → β → α) (init : List (κ × α)) (a : κ) :
    a ∈ dictKeys (l.foldl (fun res b => dictInsert res (K b) (V res b)) init) ↔
      a ∈ dictKeys init ∨ ∃ b ∈ l, K b = a := by
  induction l generalizing init with
  | nil => simp
  | cons b t ih =>
    rw [List.foldl_cons, ih, mem_dictKeys_dictInsert]
    constructor
    · rintro ((h | rfl) | ⟨b', hb', rfl⟩)
      · exact Or.inl h
      · exact Or.inr ⟨b, List.mem_cons_self _ _, rfl⟩
      · exact Or.inr ⟨b', List.mem_cons_of_mem _ hb', rfl⟩
    · rintro (h | ⟨b', hb', rfl⟩)
      · exact Or.inl (Or.inl h)
      · rcases List.mem_cons.mp hb' with rfl | hb't
        · exact Or.inl (Or.inr rfl)
        · exact Or.inr ⟨b', hb't, rfl⟩

/-- C7 (corrected): the normalizer returns an empty record, without
raising, for an all-empty grid; for a grid whose cleaned frame is a lone
header row it returns an empty record exactly when the first header label
is not duplicated among the header labels, and otherwise raises (`none`,
the pandas `set_index` `ValueError`); and every key of a successful output
comes from a data row whose identifier cell is present — rows with an
empty/null identifier never contribute a key. -/
theorem normalizer_empty_and_id_filter :
    (∀ g : Grid, (∀ row ∈ g, ∀ c ∈ row, c = (none : Cell)) →
      excel_to_json g = some []) ∧
    (∀ (g : Grid) (hs : List Cell), cleanGrid g = [hs] →
      excel_to_json g = if dupFirstLabel hs then none else some []) ∧
    (∀ (g : Grid) (rec : Record) (k : String), excel_to_json g = some rec →
      k ∈ dictKeys rec →
      ∃ hs rows row v, cleanGrid g = hs :: rows ∧ row ∈ rows ∧
        row.getD 0 none = some v ∧ k = pyStr v) := by
  refine ⟨?_, ?_, ?_⟩
  · intro g hall
    have hkept : keptRowsOf g = [] := by
      unfold keptRowsOf
      rw [List.filter_eq_nil_iff]
      intro row' hrow'
      rcases List.mem_map.mp hrow' with ⟨row, hrow, rfl⟩
      unfold rowNonEmpty
      rw [Bool.not_eq_true, List.any_eq_false]
      intro c hc
      unfold padRow at hc
      rcases List.mem_append.mp hc with h1 | h1
      · rw [hall row hrow c h1]
        simp
      · rw [List.eq_of_mem_replicate h1]
        simp
    unfold excel_to_json
    have hclean : cleanGrid g = [] := by
      unfold cleanGrid
      rw [hkept]
      rfl
    rw [hclean]
  · intro g hs hclean
    unfold excel_to_json
    rw [hclean]
    cases hs with
    | nil => rfl
    | cons a t => rfl
  · intro g rec k hrec hk
    cases hclean : cleanGrid g with
    | nil =>
      simp only [excel_to_json, hclean] at hrec
      cases hrec
      simp [dictKeys] at hk
    | cons hs rows =>
      simp only [excel_to_json, hclean] at hrec
      by_cases hemp : hs.isEmpty
      · rw [if_pos hemp] at hrec
        cases hrec
        simp [dictKeys] at hk
      · rw [if_neg hemp] at hrec
        by_cases hdup : dupFirstLabel hs
        · rw [if_pos hdup] at hrec
          cases hrec
        · rw [if_neg hdup] at hrec
          cases hrec
          rw [mem_dictKeys_foldl_dictInsert_of
              (K := fun row => idKey (row.getD 0 none))
              (V := fun _ row => RowVal.obj (mkRowDict hs row))] at hk
          rcases hk with h | ⟨row, hrow, rfl⟩
          · simp [dictKeys] at h
          · have hmem := List.mem_filter.mp hrow
            have hid : ∃ v, row.getD 0 none = some v := by
              cases hcell : row.getD 0 none with
              | none =>
                rw [hcell] at hmem
                simp at hmem
              | some v => exact ⟨v, rfl⟩
            rcases hid with ⟨v, hv⟩
            exact ⟨hs, rows, row, v, rfl, hmem.1, hv, by rw [hv]; rfl⟩

/-- Counterexample to the literal claim C7: a header-only grid whose lone
header row repeats its first label makes `set_index` raise a `ValueError`
instead of returning an empty mapping. -/
theorem normalizer_raises_on_dup_header :
    excel_to_json [[some (Val.str "A"), some (Val.str "A")]] = none := by
  decide

/-- Witness for C7: an all-empty grid, a header-only grid with distinct
header labels, and a key of a populated grid traced back to its identifier
cell. -/
theorem normalizer_empty_and_id_filter_witness :
    excel_to_json [[none, none], []] = some [] ∧
    excel_to_json [[some (Val.str "H"), some (Val.str "A")]] =
      (if dupFirstLabel [some (Val.str "H"), some (Val.str "A")] then none
       else some []) ∧
    (∃ hs rows row v,
      cleanGrid [[some (Val.str "H"), some (Val.str "A")],
                 [none, some (Val.int 1)],
                 [some (Val.str "Total"), some (Val.int 2)]] = hs :: rows ∧
      row ∈ rows ∧ row.getD 0 none = some v ∧ "Total" = pyStr v) := by
  refine ⟨?_, ?_, ?_⟩
  · exact normalizer_empty_and_id_filter.1 [[none, none], []] (by decide)
  · exact normalizer_empty_and_id_filter.2.1 [[some (Val.str "H"), some (Val.str "A")]]
      [some (Val.str "H"), some (Val.str "A")] (by decide)
  · exact normalizer_empty_and_id_filter.2.2
      [[some (Val.str "H"), some (Val.str "A")],
       [none, some (Val.int 1)],
       [some (Val.str "Total"), some (Val.int 2)]]
      [("Total", RowVal.obj [("A", some (Val.int 2))])] "Total" (by decide) (by decide)

/-! ## C6: column-name matching rule -/

/-- The spec's fallback rule, stated from its words: strip one trailing
`.0` (the code's `replace` removes every occurrence instead, which is at
least as permissive). -/
def stripTrailingDotZero (s : String) : String :=
  match s.toList.reverse with
  | '0' :: '.' :: rest => String.mk rest.reverse
  | _ => s

theorem replaceDotZeroL_cons (c : Char) (t : List Char)
    (h : c ≠ '.' ∨ ∀ t' : List Char, t ≠ '0' :: t') :
    replaceDotZeroL (c :: t) = c :: replaceDotZeroL t := by
  rw [replaceDotZeroL.eq_def]
  split
  · next x t' heq =>
    injection heq with h1 h2
    rcases h with h' | h'
    · exact absurd h1 h'
    · exact absurd h2 (h' t')
  · next x c' t' heq =>
    injection heq with h1 h2
    rw [← h1, ← h2]
  · next x heq => exact absurd heq (by simp)
theorem replaceDotZeroL_append_dotzero (l : List Char) :
    replaceDotZeroL (l ++ ['.', '0']) = replaceDotZeroL l := by
  induction l using replaceDotZeroL.induct with
  | case1 t ih =>
    simp only [List.cons_append]
    rw [show replaceDotZeroL ('.' :: '0' :: (t ++ ['.', '0'])) =
        replaceDotZeroL (t ++ ['.', '0']) from rfl, ih]
    rfl
  | case2 c t h ih =>
    have cond2 : c ≠ '.' ∨ ∀ t' : List Char, t ≠ '0' :: t' := by
      by_cases hc : c = '.'
      · exact Or.inr (fun t' ht => h t' hc ht)
      · exact Or.inl hc
    have cond1 : c ≠ '.' ∨ ∀ t' : List Char, t ++ ['.', '0'] ≠ '0' :: t' := by
      by_cases hc : c = '.'
      · refine Or.inr (fun t' ht => ?_)
        cases t with
        | nil => simp at ht
        | cons a t2 =>
          rw [List.cons_append, List.cons.injEq] at ht
          exact h t2 hc (by rw [ht.1])
      · exact Or.inl hc
    rw [List.cons_append, replaceDotZeroL_cons c _ cond1, ih,
      ← replaceDotZeroL_cons c t cond2]
  | case3 => rfl

theorem replaceDotZero_stripTrailing (s : String) :
    replaceDotZero (stripTrailingDotZero s) = replaceDotZero s := by
  unfold stripTrailingDotZero replaceDotZero
  split
  · next rest heq =>
    have hs : s.toList = rest.reverse ++ ['.', '0'] := by
      have := congrArg List.reverse heq
      simpa using this
    rw [hs, show (String.mk rest.reverse).toList = rest.reverse from rfl,
      replaceDotZeroL_append_dotzero]
  · rfl

/-- C6: during rehydration a template header cell and a record column key
match whenever their normalized forms are equal, or equal after stripping a
trailing `.0` on both sides (the code's `replace` removes every `.0`
occurrence, which subsumes the trailing-strip rule); in particular, a
numeric template header `2024` matches the record column key `"2024.0"`
and the value is written into that column. -/
theorem column_match_rule :
    (∀ a b : String, (a = b ∨ stripTrailingDotZero a = stripTrailingDotZero b) →
      colNamesMatch a b = true) ∧
    cellAt (json_to_excel_template
        [("Revenue", RowVal.obj [("2024.0", some (Val.int 150))])]
        [[some (Val.str "Name"), some (Val.int 2024)],
         [some (Val.str "Revenue"), none]]) 1 1 = some (Val.int 150) := by
  constructor
  · rintro a b (rfl | hstrip)
    · simp [colNamesMatch]
    · have : replaceDotZero a = replaceDotZero b := by
        rw [← replaceDotZero_stripTrailing a, ← replaceDotZero_stripTrailing b, hstrip]
      simp [colNamesMatch, this]
  · decide

/-- Witness for C6 at names equal only after the trailing strip. -/
theorem column_match_rule_witness : colNamesMatch "ab.0" "ab" = true :=
  column_match_rule.1 "ab.0" "ab" (Or.inr (by decide))

/-! ## Grid write lemmas -/

theorem getD_replicate_none (k c : Nat) :
    (List.replicate k (none : Cell)).getD c none = none := by
  induction k generalizing c with
  | zero => simp
  | succ n ih =>
    cases c with
    | zero => simp [List.replicate]
    | succ c' =>
      rw [List.replicate, List.getD_cons_succ]
      exact ih c'

theorem getD_append_replicate_none (row : List Cell) (k c : Nat) :
    (row ++ List.replicate k (none : Cell)).getD c none = row.getD c none := by
  induction row generalizing c with
  | nil =>
    rw [List.nil_append, List.getD_nil]
    exact getD_replicate_none k c
  | cons a t ih =>
    cases c with
    | zero => simp
    | succ c' =>
      rw [List.cons_append, List.getD_cons_succ, List.getD_cons_succ]
      exact ih c'

theorem getD_setRowCell_self (row : List Cell) (c : Nat) (v : Cell) :
    (setRowCell row c v).getD c none = v := by
  unfold setRowCell
  rw [List.getD_eq_getElem?_getD, List.getElem?_set_self, Option.getD_some]
  rw [List.length_append, List.length_replicate]
  omega

theorem getD_setRowCell_ne (row : List Cell) (c : Nat) (v : Cell) (c' : Nat) (h : c' ≠ c) :
    (setRowCell row c v).getD c' none = row.getD c' none := by
  unfold setRowCell
  rw [List.getD_eq_getElem?_getD, List.getElem?_set_ne (Ne.symm h),
    ← List.getD_eq_getElem?_getD, getD_append_replicate_none]

theorem cellAt_setCell_self (g : Grid) (r c : Nat) (v : Cell) (hr : r < g.length) :
    cellAt (setCell g r c v) r c = v := by
  unfold cellAt setCell
  have houter : (g.set r (setRowCell (g.getD r []) c v)).getD r [] =
      setRowCell (g.getD r []) c v := by
    rw [List.getD_eq_getElem?_getD, List.getElem?_set_self (by simpa using hr),
      Option.getD_some]
  rw [houter, getD_setRowCell_self]

theorem cellAt_setCell_ne (g : Grid) (r c : Nat) (v : Cell) (r' c' : Nat)
    (h : r' ≠ r ∨ c' ≠ c) : cellAt (setCell g r c v) r' c' = cellAt g r' c' := by
  unfold cellAt setCell
  rcases h with h | h
  · have houter : (g.set r (setRowCell (g.getD r []) c v)).getD r' [] = g.getD r' [] := by
      rw [List.getD_eq_getElem?_getD, List.getElem?_set_ne (Ne.symm h),
        ← List.getD_eq_getElem?_getD]
    rw [houter]
  · by_cases hr : r' = r
    · subst hr
      by_cases hlen : r' < g.length
      · have houter : (g.set r' (setRowCell (g.getD r' []) c v)).getD r' [] =
            setRowCell (g.getD r' []) c v := by
          rw [List.getD_eq_getElem?_getD, List.getElem?_set_self (by simpa using hlen),
            Option.getD_some]
        rw [houter, getD_setRowCell_ne _ _ _ _ h]
      · rw [List.set_eq_of_length_le (by omega)]
    · have houter : (g.set r (setRowCell (g.getD r []) c v)).getD r' [] = g.getD r' [] := by
        rw [List.getD_eq_getElem?_getD, List.getElem?_set_ne (Ne.symm hr),
          ← List.getD_eq_getElem?_getD]
      rw [houter]

theorem dictLookup_mem_values [BEq κ] (d : List (κ × α)) (k : κ) (v : α)
    (h : dictLookup d k = some v) : v ∈ d.map Prod.snd := by
  unfold dictLookup at h
  cases hf : d.find? (fun p => p.1 == k) with
  | none => rw [hf] at h; cases h
  | some q =>
    rw [hf] at h
    have hq : q ∈ d := List.mem_of_find?_eq_some hf
    have : q.2 = v := by simpa using h
    exact this ▸ List.mem_map_of_mem Prod.snd hq

theorem writeRow_frame (colMap : List (String × Nat)) (rT : Nat)
    (m : List (String × Cell)) (acc : Grid) (r c : Nat)
    (h : r ≠ rT ∨ c ∉ colMap.map Prod.snd) :
    cellAt (writeRow colMap rT m acc) r c = cellAt acc r c := by
  induction m generalizing acc with
  | nil => rfl
  | cons q t ih =>
    obtain ⟨k, val⟩ := q
    show cellAt (writeRow colMap rT t (match dictLookup colMap k with
      | some c' => setCell acc rT c' val
      | none => acc)) r c = _
    cases hlook : dictLookup colMap k with
    | none => exact ih acc
    | some c' =>
      refine (ih (setCell acc rT c' val)).trans ?_
      apply cellAt_setCell_ne
      rcases h with h | h
      · exact Or.inl h
      · exact Or.inr (fun hc => h (hc ▸ dictLookup_mem_values colMap k c' hlook))

/-! ## C3: rehydrator frame property -/

/-- The column positions resolved by the column-name mapping. -/
def colTargets (jd : Record) (g : Grid) (hdr : Nat) : List Nat :=
  (json_to_col g hdr (rowNameColIdx g hdr) (json_col_names jd)).map Prod.snd

/-- The row positions resolved by the row-name mapping for the record's
mapping-valued rows. -/
def rowTargets (jd : Record) (g : Grid) (hdr : Nat) : List Nat :=
  jd.filterMap (fun p =>
    match p.2 with
    | RowVal.obj _ => resolveRowIdx (row_name_to_row_idx g hdr (rowNameColIdx g hdr)) p.1
    | _ => none)

theorem rehydrate_fold_frame (colMap : List (String × Nat)) (tbl : List (String × Nat))
    (jd : Record) (acc : Grid) (r c : Nat)
    (h : ∀ p ∈ jd, ∀ m, p.2 = RowVal.obj m → ∀ rT, resolveRowIdx tbl p.1 = some rT →
      r ≠ rT ∨ c ∉ colMap.map Prod.snd) :
    cellAt (jd.foldl (fun acc p =>
      match p.2 with
      | RowVal.scalar _ => acc
      | RowVal.obj m =>
        match resolveRowIdx tbl p.1 with
        | none => acc
        | some rT => writeRow colMap rT m acc) acc) r c = cellAt acc r c := by
  induction jd generalizing acc with
  | nil => rfl
  | cons p t ih =>
    obtain ⟨k, w⟩ := p
    have ht : ∀ p ∈ t, ∀ m, p.2 = RowVal.obj m → ∀ rT, resolveRowIdx tbl p.1 = some rT →
        r ≠ rT ∨ c ∉ colMap.map Prod.snd :=
      fun p hp => h p (List.mem_cons_of_mem _ hp)
    cases w with
    | scalar v => exact ih acc ht
    | obj m =>
      show cellAt (t.foldl _ (match resolveRowIdx tbl k with
        | none => acc
        | some rT => writeRow colMap rT m acc)) r c = _
      cases hres : resolveRowIdx tbl k with
      | none => exact ih acc ht
      | some rT =>
        refine (ih _ ht).trans ?_
        exact writeRow_frame colMap rT m acc r c
          (h (k, RowVal.obj m) (List.mem_cons_self _ _) m rfl rT hres)

/-- C3: any template cell whose position is not resolved by both the
row-name mapping and the column-name mapping keeps exactly its original
value under rehydration; in particular template rows and columns absent
from the filled record are never cleared or modified, and unmatched
rows/columns are skipped without error. -/
theorem rehydrator_frame (jd : Record) (g : Grid) (r c : Nat)
    (h : ∀ hdr, headerRowIdx g = some hdr →
      ¬(r ∈ rowTargets jd g hdr ∧ c ∈ colTargets jd g hdr)) :
    cellAt (json_to_excel_template jd g) r c = cellAt g r c := by
  unfold json_to_excel_template
  by_cases hemp : jd.isEmpty
  · simp [hemp]
  · simp only [hemp, Bool.false_eq_true, if_false]
    cases hhdr : headerRowIdx g with
    | none => rfl
    | some hdr =>
      have hnc := h hdr hhdr
      dsimp only
      apply rehydrate_fold_frame
      intro p hp m hm rT hres
      by_cases hrow : r = rT
      · right
        intro hc
        apply hnc
        constructor
        · rw [rowTargets, List.mem_filterMap]
          refine ⟨p, hp, ?_⟩
          rw [hm, hrow]
          exact hres
        · exact hc
      · exact Or.inl hrow

/-- Witness for C3: a record row absent from the template leaves the
template cells untouched. -/
theorem rehydrator_frame_witness :
    cellAt (json_to_excel_template [("Missing", RowVal.obj [("A", some (Val.int 9))])]
      [[some (Val.str "Name"), some (Val.str "A")],
       [some (Val.str "Total"), some (Val.int 5)]]) 1 1 =
    cellAt [[some (Val.str "Name"), some (Val.str "A")],
            [some (Val.str "Total"), some (Val.int 5)]] 1 1 := by
  apply rehydrator_frame
  intro hdr hh
  rw [show headerRowIdx [[some (Val.str "Name"), some (Val.str "A")],
      [some (Val.str "Total"), some (Val.int 5)]] = some 0 from rfl] at hh
  cases hh
  decide

/-! ## C10: record-side column names come from the first entry only -/

/-- Restrict every mapping row of a record to the column names of its first
entry (the only names the rehydrator can ever match). -/
def restrictToSample (jd : Record) : Record :=
  jd.map (fun p =>
    match p.2 with
    | RowVal.obj m => (p.1, RowVal.obj (m.filter (fun q => (json_col_names jd).contains q.1)))
    | w => (p.1, w))

theorem dictLookup_some_mem_keys [BEq κ] [LawfulBEq κ] (d : List (κ × α)) (k : κ) (v : α)
    (h : dictLookup d k = some v) : k ∈ dictKeys d := by
  unfold dictLookup at h
  cases hf : d.find? (fun p => p.1 == k) with
  | none => rw [hf] at h; cases h
  | some q =>
    have hq : q ∈ d := List.mem_of_find?_eq_some hf
    have hqk := List.find?_some hf
    simp only [] at hqk
    exact (eq_of_beq hqk) ▸ List.mem_map_of_mem Prod.fst hq

theorem json_to_col_domain (g : Grid) (hdr rnc : Nat) (names : List String) (k : String)
    (h : k ∈ dictKeys (json_to_col g hdr rnc names)) : k ∈ names := by
  unfold json_to_col at h
  generalize hcols : columnHeaders g hdr rnc = cols at h
  suffices haux : ∀ (cols : List (Nat × Val)) (init : List (String × Nat)),
      (∀ a ∈ dictKeys init, a ∈ names) →
      k ∈ dictKeys (cols.foldl (fun m p =>
        match names.find?
            (fun k => colNamesMatch (normalize_col_name p.2) (normalize_col_name (.str k))) with
        | some k => dictInsert m k p.1
        | none => m) init) → k ∈ names by
    exact haux cols [] (by simp [dictKeys]) h
  intro cols
  induction cols with
  | nil => exact fun init hinit hk => hinit k hk
  | cons p t ih =>
    intro init hinit hk
    rw [List.foldl_cons] at hk
    cases hfind : names.find?
        (fun k => colNamesMatch (normalize_col_name p.2) (normalize_col_name (.str k))) with
    | none =>
      rw [hfind] at hk
      exact ih init hinit hk
    | some k' =>
      rw [hfind] at hk
      refine ih (dictInsert init k' p.1) ?_ hk
      intro a ha
      rcases (mem_dictKeys_dictInsert init k' a p.1).mp ha with h1 | rfl
      · exact hinit a h1
      · exact List.mem_of_find?_eq_some hfind

theorem writeRow_nil_colMap (rT : Nat) (m : List (String × Cell)) (acc : Grid) :
    writeRow [] rT m acc = acc := by
  induction m generalizing acc with
  | nil => rfl
  | cons q t ih => exact ih acc

theorem containsb_iff_mem [BEq κ] [LawfulBEq κ] (l : List κ) (a : κ) :
    l.contains a = true ↔ a ∈ l := by
  rw [List.contains_iff_exists_mem_beq]
  constructor
  · rintro ⟨b, hb, hbeq⟩
    exact (eq_of_beq hbeq) ▸ hb
  · intro h
    exact ⟨a, h, beq_self_eq_true a⟩

theorem writeRow_filter_names (colMap : List (String × Nat)) (names : List String)
    (rT : Nat) (m : List (String × Cell)) (acc : Grid)
    (hdom : ∀ a ∈ dictKeys colMap, a ∈ names) :
    writeRow colMap rT (m.filter (fun q => names.contains q.1)) acc =
      writeRow colMap rT m acc := by
  induction m generalizing acc with
  | nil => rfl
  | cons q t ih =>
    obtain ⟨k, val⟩ := q
    by_cases hmem : names.contains k
    · rw [show ((k, val) :: t).filter (fun q => names.contains q.1) =
          (k, val) :: t.filter (fun q => names.contains q.1) from by
        simp only [List.filter_cons, hmem, if_true]]
      show writeRow colMap rT (t.filter _) (match dictLookup colMap k with
        | some c' => setCell acc rT c' val
        | none => acc) = writeRow colMap rT t (match dictLookup colMap k with
        | some c' => setCell acc rT c' val
        | none => acc)
      exact ih _
    · rw [show ((k, val) :: t).filter (fun q => names.contains q.1) =
          t.filter (fun q => names.contains q.1) from by
        simp only [List.filter_cons, Bool.not_eq_true] at hmem ⊢
        rw [hmem]
        simp]
      cases hlook : dictLookup colMap k with
      | none =>
        rw [ih acc]
        show writeRow colMap rT t acc = writeRow colMap rT t (match dictLookup colMap k with
          | some c' => setCell acc rT c' val
          | none => acc)
        rw [hlook]
      | some c' =>
        exact absurd ((containsb_iff_mem names k).mpr
          (hdom k (dictLookup_some_mem_keys colMap k c' hlook))) hmem

theorem json_to_col_nil_names (g : Grid) (hdr rnc : Nat) :
    json_to_col g hdr rnc [] = [] := by
  unfold json_to_col
  generalize columnHeaders g hdr rnc = cols
  induction cols with
  | nil => rfl
  | cons p t ih => exact ih

theorem rehydrate_fold_nil_colMap (tbl : List (String × Nat)) (jd : Record) (acc : Grid) :
    jd.foldl (fun acc p =>
      match p.2 with
      | RowVal.scalar _ => acc
      | RowVal.obj m =>
        match resolveRowIdx tbl p.1 with
        | none => acc
        | some rT => writeRow [] rT m acc) acc = acc := by
  induction jd generalizing acc with
  | nil => rfl
  | cons p t ih =>
    obtain ⟨k, w⟩ := p
    cases w with
    | scalar v => exact ih acc
    | obj m =>
      show t.foldl _ (match resolveRowIdx tbl k with
        | none => acc
        | some rT => writeRow [] rT m acc) = acc
      cases hres : resolveRowIdx tbl k with
      | none => exact ih acc
      | some rT =>
        show List.foldl _ (writeRow [] rT m acc) t = acc
        rw [writeRow_nil_colMap]
        exact ih acc

theorem foldl_congr_on {α β : Type _} (f : α → β → α) (gm : β → β) (l : List β) (init : α)
    (h : ∀ acc b, b ∈ l → f acc (gm b) = f acc b) :
    (l.map gm).foldl f init = l.foldl f init := by
  induction l generalizing init with
  | nil => rfl
  | cons b t ih =>
    rw [List.map_cons, List.foldl_cons, List.foldl_cons, h init b (List.mem_cons_self _ _)]
    exact ih _ (fun acc b' hb' => h acc b' (List.mem_cons_of_mem _ hb'))

theorem json_col_names_restrict (jd : Record) :
    json_col_names (restrictToSample jd) = json_col_names jd := by
  cases jd with
  | nil => rfl
  | cons p rest =>
    obtain ⟨k, w⟩ := p
    cases w with
    | scalar v => rfl
    | obj m =>
      show dictKeys (m.filter
        (fun q => (json_col_names ((k, RowVal.obj m) :: rest)).contains q.1)) = dictKeys m
      rw [show json_col_names ((k, RowVal.obj m) :: rest) = dictKeys m from rfl]
      rw [show m.filter (fun q => (dictKeys m).contains q.1) = m from
        List.filter_eq_self.mpr (fun q hq =>
          (containsb_iff_mem _ _).mpr (List.mem_map_of_mem Prod.fst hq))]

/-- C10: the rehydrator's record-side column names come solely from the
first entry of the filled record — dropping, from every row, the columns
absent from the first entry's key set does not change the output (so a
column appearing only in later rows is never written), the column map only
binds names of the given record-side set, and when the record's first
value is not a mapping no cell of any row receives a value (the template
is returned unchanged). -/
theorem rehydrator_columns_from_first_entry :
    (∀ (jd : Record) (g : Grid),
      json_to_excel_template (restrictToSample jd) g = json_to_excel_template jd g) ∧
    (∀ (g : Grid) (hdr rnc : Nat) (names : List String) (k : String),
      k ∈ dictKeys (json_to_col g hdr rnc names) → k ∈ names) ∧
    (∀ (k : String) (w : RowVal) (rest : Record) (g : Grid),
      isObjRow w = false → json_to_excel_template ((k, w) :: rest) g = g) := by
  refine ⟨?_, json_to_col_domain, ?_⟩
  · intro jd g
    unfold json_to_excel_template
    by_cases hemp : jd.isEmpty
    · have : jd = [] := List.isEmpty_iff.mp hemp
      subst this
      rfl
    · have hne : jd.isEmpty = false := by
        rwa [Bool.not_eq_true] at hemp
      have hne' : (restrictToSample jd).isEmpty = false := by
        cases jd with
        | nil => cases hne
        | cons p rest =>
          obtain ⟨k, w⟩ := p
          cases w <;> rfl
      rw [hne, hne']
      simp only [Bool.false_eq_true, if_false]
      cases hhdr : headerRowIdx g with
      | none => rfl
      | some hdr =>
        dsimp only
        rw [json_col_names_restrict]
        unfold restrictToSample
        apply foldl_congr_on
        intro acc p hp
        obtain ⟨kk, w⟩ := p
        cases w with
        | scalar v => rfl
        | obj m =>
          show (match resolveRowIdx (row_name_to_row_idx g hdr (rowNameColIdx g hdr)) kk with
            | none => acc
            | some rT => writeRow
                (json_to_col g hdr (rowNameColIdx g hdr) (json_col_names jd)) rT
                (m.filter (fun q => (json_col_names jd).contains q.1)) acc) = _
          cases hres : resolveRowIdx (row_name_to_row_idx g hdr (rowNameColIdx g hdr)) kk with
          | none => rfl
          | some rT =>
            exact writeRow_filter_names _ _ rT m acc
              (fun a ha => json_to_col_domain g hdr (rowNameColIdx g hdr) _ a ha)
  · intro k w rest g hobj
    unfold json_to_excel_template
    rw [show ((k, w) :: rest).isEmpty = false from rfl]
    simp only [Bool.false_eq_true, if_false]
    cases hhdr : headerRowIdx g with
    | none => rfl
    | some hdr =>
      dsimp only
      have hnames : json_col_names ((k, w) :: rest) = [] := by
        cases w with
        | scalar v => rfl
        | obj m => simp [isObjRow] at hobj
      rw [hnames, json_to_col_nil_names]
      exact rehydrate_fold_nil_colMap _ _ _

/-- Witness for C10: the column map only binds record-side names, and a
record with a non-mapping first value leaves the template untouched. -/
theorem rehydrator_columns_from_first_entry_witness :
    ("2024.0" ∈ ["2024.0"]) ∧
    json_to_excel_template
      [("x", RowVal.scalar none), ("R", RowVal.obj [("A", some (Val.int 1))])]
      [[some (Val.str "Name"), some (Val.str "A")],
       [some (Val.str "R"), some (Val.int 5)]] =
    [[some (Val.str "Name"), some (Val.str "A")],
     [some (Val.str "R"), some (Val.int 5)]] := by
  constructor
  · exact rehydrator_columns_from_first_entry.2.1
      [[some (Val.str "Name"), some (Val.int 2024)], [some (Val.str "R"), none]]
      0 0 ["2024.0"] "2024.0" (by decide)
  · exact rehydrator_columns_from_first_entry.2.2 "x" (RowVal.scalar none)
      [("R", RowVal.obj [("A", some (Val.int 1))])] _ rfl

/-! ## C2: round trip of rehydration after normalization -/

/-- The decimal digits of a natural number, most significant first. -/
def natDigits (n : Nat) : List Char :=
  if _h : n < 10 then [Nat.digitChar n]
  else natDigits (n / 10) ++ [Nat.digitChar (n % 10)]
decreasing_by exact Nat.div_lt_self (by omega) (by omega)

theorem toDigitsCore_eq_natDigits (f : Nat) : ∀ (n : Nat) (ds : List Char), n < f →
    Nat.toDigitsCore 10 f n ds = natDigits n ++ ds := by
  induction f with
  | zero => omega
  | succ f ih =>
    intro n ds h
    rw [show Nat.toDigitsCore 10 (f + 1) n ds =
        (if n / 10 = 0 then Nat.digitChar (n % 10) :: ds
         else Nat.toDigitsCore 10 f (n / 10) (Nat.digitChar (n % 10) :: ds)) from rfl]
    by_cases h10 : n / 10 = 0
    · have hn : n < 10 := by omega
      rw [if_pos h10, natDigits, dif_pos hn, Nat.mod_eq_of_lt hn]
      rfl
    · rw [if_neg h10, ih (n / 10) _ (by omega),
        show natDigits n = natDigits (n / 10) ++ [Nat.digitChar (n % 10)] from by
          rw [natDigits, dif_neg (by omega)]]
      simp

theorem natDigits_all_digit (n : Nat) : ∀ c ∈ natDigits n, c.isDigit = true := by
  induction n using Nat.strong_induction_on with
  | _ n ih =>
    intro c hc
    rw [natDigits] at hc
    by_cases hn : n < 10
    · rw [dif_pos hn] at hc
      simp at hc
      subst hc
      interval_cases n <;> decide
    · rw [dif_neg hn] at hc
      rcases List.mem_append.mp hc with h1 | h1
      · exact ih (n / 10) (Nat.div_lt_self (by omega) (by omega)) c h1
      · simp at h1
        subst h1
        have : n % 10 < 10 := Nat.mod_lt _ (by omega)
        interval_cases h : n % 10 <;> decide

theorem natDigits_ne_nil (n : Nat) : natDigits n ≠ [] := by
  rw [natDigits]
  by_cases hn : n < 10
  · rw [dif_pos hn]; simp
  · rw [dif_neg hn]; simp [natDigits_ne_nil (n / 10)]

theorem digitsVal_append_single (l : List Char) (c : Char) :
    digitsVal (l ++ [c]) = digitsVal l * 10 + digitVal c := by
  unfold digitsVal
  rw [List.foldl_append]
  rfl

theorem digitsVal_natDigits (n : Nat) : digitsVal (natDigits n) = n := by
  induction n using Nat.strong_induction_on with
  | _ n ih =>
    rw [natDigits]
    by_cases hn : n < 10
    · rw [dif_pos hn]
      show digitsVal [Nat.digitChar n] = n
      unfold digitsVal
      simp [digitVal_digitChar n hn]
    · rw [dif_neg hn, digitsVal_append_single,
        ih (n / 10) (Nat.div_lt_self (by omega) (by omega)),
        digitVal_digitChar _ (Nat.mod_lt _ (by omega))]
      omega

theorem Nat_repr_toList (n : Nat) : (Nat.repr n).toList = natDigits n := by
  show (List.asString (Nat.toDigitsCore 10 (n + 1) n [])).toList = natDigits n
  rw [toDigitsCore_eq_natDigits (n + 1) n [] (by omega), List.append_nil]
  rfl

theorem dropWhile_eq_self_of_false {p : Char → Bool} (l : List Char)
    (h : ∀ c ∈ l, p c = false) : l.dropWhile p = l := by
  cases l with
  | nil => rfl
  | cons a t =>
    rw [List.dropWhile_cons, h a (List.mem_cons_self _ _)]
    simp

theorem pyStrip_eq_self_of_no_space (l : List Char) (h : ∀ c ∈ l, isPySpace c = false) :
    pyStrip (String.mk l) = String.mk l := by
  unfold pyStrip
  rw [show (String.mk l).toList = l from rfl, dropWhile_eq_self_of_false l h,
    dropWhile_eq_self_of_false l.reverse (fun c hc => h c (List.mem_reverse.mp hc)),
    List.reverse_reverse]

theorem digit_beq_false (c d : Char) (hc : c.isDigit = true) (hd : d.isDigit = false) :
    (c == d) = false := by
  by_cases h : c = d
  · subst h
    rw [hc] at hd
    cases hd
  · exact beq_eq_false_iff_ne.mpr h

theorem isDigit_not_space (c : Char) (h : c.isDigit = true) : isPySpace c = false := by
  unfold isPySpace
  have h1 : (c == ' ') = false := digit_beq_false c ' ' h (by decide)
  have h2 : (c == '\t') = false := digit_beq_false c '\t' h (by decide)
  have h3 : (c == '\n') = false := digit_beq_false c '\n' h (by decide)
  have h4 : (c == '\r') = false := digit_beq_false c '\r' h (by decide)
  rw [h1, h2, h3, h4]
  rfl

theorem takeWhile_eq_self_of_true {p : Char → Bool} (l : List Char)
    (h : ∀ c ∈ l, p c = true) : l.takeWhile p = l := by
  induction l with
  | nil => rfl
  | cons a t ih =>
    rw [List.takeWhile_cons, h a (List.mem_cons_self _ _)]
    simp [ih (fun c hc => h c (List.mem_cons_of_mem _ hc))]

theorem dropWhile_eq_nil_of_true {p : Char → Bool} (l : List Char)
    (h : ∀ c ∈ l, p c = true) : l.dropWhile p = [] := by
  induction l with
  | nil => rfl
  | cons a t ih =>
    rw [List.dropWhile_cons, h a (List.mem_cons_self _ _)]
    simp [ih (fun c hc => h c (List.mem_cons_of_mem _ hc))]

theorem parse_digits (l : List Char) (hne : l ≠ []) (hdig : ∀ c ∈ l, c.isDigit = true) :
    parsePyFloat (String.mk l) = some ⟨false, digitsVal l, []⟩ := by
  unfold parsePyFloat
  rw [pyStrip_eq_self_of_no_space l (fun c hc => isDigit_not_space c (hdig c hc))]
  cases l with
  | nil => exact absurd rfl hne
  | cons c t =>
    have hc := hdig c (List.mem_cons_self _ _)
    have hminus : (c == '-') = false := digit_beq_false c '-' hc (by decide)
    have hplus : (c == '+') = false := digit_beq_false c '+' hc (by decide)
    rw [show (String.mk (c :: t)).toList = c :: t from rfl]
    dsimp only
    rw [show ((c :: t).head? == some '-') = (c == '-') from rfl,
      show ((c :: t).head? == some '+') = (c == '+') from rfl, hminus, hplus]
    simp only [Bool.or_self, if_false, Bool.false_eq_true]
    rw [takeWhile_eq_self_of_true _ hdig, dropWhile_eq_nil_of_true _ hdig]
    simp

theorem parse_neg_digits (l : List Char) (hne : l ≠ []) (hdig : ∀ c ∈ l, c.isDigit = true) :
    parsePyFloat (String.mk ('-' :: l)) = some ⟨true, digitsVal l, []⟩ := by
  unfold parsePyFloat
  have hnos : ∀ c ∈ '-' :: l, isPySpace c = false := by
    intro c hc
    rcases List.mem_cons.mp hc with rfl | hc
    · rfl
    · exact isDigit_not_space c (hdig c hc)
  rw [pyStrip_eq_self_of_no_space _ hnos]
  rw [show (String.mk ('-' :: l)).toList = '-' :: l from rfl]
  dsimp only
  rw [show (('-' :: l).head? == some '-') = true from rfl]
  simp only [Bool.true_or, if_true, List.tail_cons]
  rw [takeWhile_eq_self_of_true _ hdig, dropWhile_eq_nil_of_true _ hdig]
  cases l with
  | nil => exact absurd rfl hne
  | cons c t => simp

theorem parse_int_repr (n : Int) : parsePyFloat (Int.repr n) = some (pyFloatOfInt n) := by
  cases n with
  | ofNat m =>
    have hrepr : Nat.repr m = String.mk (natDigits m) := by
      have h1 := Nat_repr_toList m
      have h2 : String.mk (Nat.repr m).toList = Nat.repr m := rfl
      rw [← h2, h1]
    show parsePyFloat (Nat.repr m) = _
    rw [hrepr, parse_digits _ (natDigits_ne_nil m) (natDigits_all_digit m),
      digitsVal_natDigits]
    unfold pyFloatOfInt
    have : (Int.ofNat m < 0) = False := by
      simp
    rw [show (Int.ofNat m).natAbs = m from rfl]
    simp [this]
  | negSucc m =>
    have hrepr : Int.repr (Int.negSucc m) = String.mk ('-' :: natDigits (m + 1)) := by
      show "-" ++ Nat.repr (m + 1) = _
      have h1 : Nat.repr (m + 1) = String.mk (natDigits (m + 1)) := by
        have := Nat_repr_toList (m + 1)
        have h2 : String.mk (Nat.repr (m + 1)).toList = Nat.repr (m + 1) := rfl
        rw [← h2, this]
      rw [h1]
      rfl
    rw [hrepr, parse_neg_digits _ (natDigits_ne_nil (m + 1)) (natDigits_all_digit (m + 1)),
      digitsVal_natDigits]
    unfold pyFloatOfInt
    have : (Int.negSucc m < 0) = True := by
      simp only [eq_iff_iff, iff_true]
      exact Int.negSucc_lt_zero m
    rw [show (Int.negSucc m).natAbs = m + 1 from rfl]
    simp [this]

/-- Whether a scalar is a Python int or str (the cell kinds whose
stringification round-trips exactly in the decimal model). -/
def intOrStrB : Val → Bool
  | Val.float _ => false
  | _ => true

/-- Lemma B: normalizing the stringified form of an int-or-str scalar gives
the same name as normalizing the scalar itself (`str(float(str(v)))` agrees
with `str(float(v))`). -/
theorem normalize_pyStr (v : Val) (h : intOrStrB v = true) :
    normalize_col_name (Val.str (pyStr v)) = normalize_col_name v := by
  cases v with
  | int n =>
    show normalize_col_name (Val.str (Int.repr n)) = _
    unfold normalize_col_name
    rw [show pyFloatOf (Val.str (Int.repr n)) = parsePyFloat (Int.repr n) from rfl,
      parse_int_repr, show pyFloatOf (Val.int n) = some (pyFloatOfInt n) from rfl]
  | float f => cases h
  | str s => rfl

/-- An identifier cell is well formed when it is absent or holds an
int-or-str scalar whose string form is strip-invariant. -/
def idCellOkB : Cell → Bool
  | none => true
  | some v => intOrStrB v && (pyStrip (pyStr v) == pyStr v)

/-- A header cell of a populated column must hold an int-or-str scalar. -/
def hdrCellOkB : Cell → Bool
  | none => false
  | some v => intOrStrB v

/-- Two identifier cells carry different keys (when both are present). -/
def diffKeyB : Cell → Cell → Bool
  | some v, some v' => !(pyStr v == pyStr v')
  | _, _ => true

/-- Two header cells do not match under the rehydrator's column rule
(when both are present). -/
def hdrNoMatchB : Cell → Cell → Bool
  | some v, some v' => !colNamesMatch (normalize_col_name v) (normalize_col_name v')
  | _, _ => true

/-! List utilities for the round-trip proof. -/

theorem find?_range_spec (n : Nat) (p : Nat → Bool) (m : Nat)
    (h : (List.range n).find? p = some m) : p m = true ∧ ∀ k < m, p k = false := by
  induction n with
  | zero => cases h
  | succ n ih =>
    rw [List.range_succ, List.find?_append] at h
    cases hf : (List.range n).find? p with
    | some m' =>
      rw [hf] at h
      simp only [Option.or] at h
      cases h
      exact ih hf
    | none =>
      rw [hf] at h
      simp only [Option.or] at h
      have hnone := List.find?_eq_none.mp hf
      by_cases hp : p n = true
      · rw [List.find?_singleton, if_pos hp] at h
        cases h
        refine ⟨hp, fun k hk => ?_⟩
        cases hq : p k
        · rfl
        · exact absurd hq (hnone k (List.mem_range.mpr hk))
      · rw [List.find?_singleton, if_neg hp] at h
        cases h


theorem filter_range_eq_cons (n : Nat) (p : Nat → Bool) (m : Nat) (hm : m < n)
    (hpm : p m = true) (hbelow : ∀ k < m, p k = false) :
    (List.range n).filter p =
      m :: (List.range n).filter (fun k => p k && decide (m < k)) := by
  have h1 : List.range' 0 m ++ List.range' m (n - m) = List.range' 0 (n - m + m) := by
    simpa using List.range'_append_1 0 m (n - m)
  have h3 : List.range' m (n - m) = m :: List.range' (m + 1) (n - m - 1) := by
    conv_lhs => rw [show n - m = (n - m - 1) + 1 from by omega]
    rw [List.range'_succ]
  have h2 : List.range' 0 (n - m + m) = List.range' 0 n := by
    rw [show n - m + m = n from by omega]
  have hsplit : List.range n = List.range m ++ m :: List.range' (m + 1) (n - m - 1) := by
    rw [List.range_eq_range', ← h2, ← h1, h3, ← List.range_eq_range']
  rw [hsplit, List.filter_append, List.filter_append]
  have hfm : (List.range m).filter p = [] :=
    List.filter_eq_nil_iff.mpr (fun k hk => by
      rw [hbelow k (List.mem_range.mp hk)]
      simp)
  have hfm2 : (List.range m).filter (fun k => p k && decide (m < k)) = [] :=
    List.filter_eq_nil_iff.mpr (fun k hk => by
      rw [hbelow k (List.mem_range.mp hk)]
      simp)
  rw [hfm, hfm2, List.nil_append, List.nil_append, List.filter_cons, List.filter_cons]
  rw [if_pos hpm, if_neg (by simp)]
  congr 1
  apply List.filter_congr
  intro k hk
  obtain ⟨i, hi, rfl⟩ := List.mem_range'.mp hk
  have hmk : m < m + 1 + 1 * i := by omega
  rw [decide_eq_true hmk, Bool.and_true]

theorem padRow_length (w : Nat) (l : List Cell) (hlen : l.length ≤ w) :
    (padRow w l).length = w := by
  unfold padRow
  rw [List.length_append, List.length_replicate]
  omega

theorem getD_eq_none_of_le (l : List Cell) (i : Nat) (h : l.length ≤ i) :
    l.getD i none = none := by
  rw [List.getD_eq_getElem?_getD, List.getElem?_eq_none (by omega)]
  rfl

theorem row_length_le_ncols (g : Grid) (r : Nat) : (g.getD r []).length ≤ ncols g := by
  induction g generalizing r with
  | nil => simp [ncols]
  | cons row t ih =>
    cases r with
    | zero =>
      rw [List.getD_cons_zero]
      show row.length ≤ max row.length (ncols t)
      exact le_max_left _ _
    | succ r' =>
      rw [List.getD_cons_succ]
      exact le_trans (ih r') (le_max_right _ _)

theorem any_eq_range_any (l : List Cell) (p : Cell → Bool) :
    l.any p = (List.range l.length).any (fun i => p (l.getD i none)) := by
  induction l with
  | nil => rfl
  | cons a t ih =>
    rw [List.any_cons, List.length_cons, List.range_succ_eq_map, List.any_cons,
      List.getD_cons_zero, List.any_map]
    congr 1

theorem foldl_guarded {α β : Type _} (f : α → β → α) (q : β → Bool) (l : List β) (init : α) :
    l.foldl (fun a b => if q b then f a b else a) init = (l.filter q).foldl f init := by
  induction l generalizing init with
  | nil => rfl
  | cons b t ih =>
    rw [List.foldl_cons, List.filter_cons]
    by_cases hq : q b
    · rw [if_pos hq, if_pos hq, List.foldl_cons, ih]
    · rw [if_neg hq, if_neg hq, ih]

theorem foldl_congr_mem {α β : Type _} (f f' : α → β → α) (l : List β) (init : α)
    (h : ∀ a b, b ∈ l → f a b = f' a b) : l.foldl f init = l.foldl f' init := by
  induction l generalizing init with
  | nil => rfl
  | cons b t ih =>
    rw [List.foldl_cons, List.foldl_cons, h init b (List.mem_cons_self _ _)]
    exact ih _ (fun a b' hb' => h a b' (List.mem_cons_of_mem _ hb'))

theorem foldl_dictInsert_keyed_eq_append [BEq κ] [LawfulBEq κ] {β γ : Type _}
    (l : List β) (K : β → κ) (V : β → γ) (acc : List (κ × γ))
    (hdisj : ∀ a ∈ dictKeys acc, a ∉ l.map K) (hnd : (l.map K).Nodup) :
    l.foldl (fun res b => dictInsert res (K b) (V b)) acc =
      acc ++ l.map (fun b => (K b, V b)) := by
  induction l generalizing acc with
  | nil => simp
  | cons b t ih =>
    have hk : K b ∉ dictKeys acc := by
      intro hmem
      exact hdisj (K b) hmem (List.mem_cons_self _ _)
    have hknd : K b ∉ t.map K ∧ (t.map K).Nodup := by
      rw [List.map_cons] at hnd
      exact List.nodup_cons.mp hnd
    have hdisj' : ∀ a ∈ dictKeys (acc ++ [(K b, V b)]), a ∉ t.map K := by
      intro a ha hat
      rw [dictKeys, List.map_append] at ha
      rcases List.mem_append.mp ha with h1 | h1
      · exact hdisj a h1 (List.mem_cons_of_mem _ hat)
      · simp at h1
        exact hknd.1 (h1 ▸ hat)
    rw [List.foldl_cons, dictInsert_of_not_mem acc (K b) _ hk, ih _ hdisj' hknd.2]
    simp

theorem lookup_map_key [BEq κ] [LawfulBEq κ] {β γ : Type _}
    (l : List β) (K : β → κ) (V : β → γ) (b : β) (hb : b ∈ l)
    (hnd : (l.map K).Nodup) :
    dictLookup (l.map (fun x => (K x, V x))) (K b) = some (V b) := by
  induction l with
  | nil => cases hb
  | cons a t ih =>
    rw [List.map_cons] at hnd ⊢
    have hknd := List.nodup_cons.mp hnd
    unfold dictLookup
    rw [List.find?_cons]
    by_cases hab : (K a == K b) = true
    · have hKab : K a = K b := eq_of_beq hab
      rcases List.mem_cons.mp hb with rfl | hbt
      · simp [hab]
      · exact absurd (hKab ▸ List.mem_map_of_mem K hbt) hknd.1
    · rcases List.mem_cons.mp hb with rfl | hbt
      · exact absurd (beq_self_eq_true (K b)) hab
      · rw [show ((K a, V a).1 == K b) = (K a == K b) from rfl]
        rw [Bool.eq_false_iff.mpr hab]
        exact ih hbt hknd.2

theorem find?_eq_some_of_unique {α : Type _} (l : List α) (p : α → Bool) (target : α)
    (hmem : target ∈ l) (hp : p target = true)
    (hothers : ∀ x ∈ l, x ≠ target → p x = false) :
    l.find? p = some target := by
  induction l with
  | nil => cases hmem
  | cons a t ih =>
    by_cases hat : a = target
    · subst hat
      exact List.find?_cons_of_pos _ hp
    · rw [List.find?_cons_of_neg _ (by
        rw [hothers a (List.mem_cons_self _ _) hat]
        simp)]
      exact ih (List.mem_cons.mp hmem |>.resolve_left (fun h => hat h.symm))
        (fun x hx => hothers x (List.mem_cons_of_mem _ hx))

theorem filterMap_eq_map_filter {α β : Type _} (F : α → Option β) (q : α → Bool)
    (G : α → β) (l : List α)
    (h : ∀ a ∈ l, F a = if q a then some (G a) else none) :
    l.filterMap F = (l.filter q).map G := by
  induction l with
  | nil => rfl
  | cons a t ih =>
    rw [List.filterMap_cons, List.filter_cons, h a (List.mem_cons_self _ _)]
    by_cases hq : q a
    · rw [if_pos hq, if_pos hq, List.map_cons,
        ih (fun x hx => h x (List.mem_cons_of_mem _ hx))]
    · rw [if_neg hq, if_neg hq, ih (fun x hx => h x (List.mem_cons_of_mem _ hx))]

/-- The side conditions under which rehydration undoes normalization: both
components detect the same header row and identifier column, cells are
never whitespace-only text, identifier and header cells are int-or-str
scalars, identifier strings are strip-invariant and pairwise distinct,
header names are present on populated columns and pairwise unambiguous
under the rehydrator's matching rule, and the identifier column's header
label is not repeated among the header labels (so the normalizer's
`set_index` does not raise). -/
structure RoundTripOk (g : Grid) (hdr : Nat) : Prop where
  hhdr : headerRowIdx g = some hdr
  hrnc : rowNameColIdx g hdr = 0
  hblank : ∀ r < nrows g, ∀ c < ncols g,
    cellNonBlank (cellAt g r c) = !(cellAt g r c).isNone
  hid : ∀ r < nrows g, hdr < r → idCellOkB (cellAt g r 0) = true
  hiddiff : ∀ r < nrows g, ∀ r' < nrows g, hdr < r → r < r' →
    diffKeyB (cellAt g r 0) (cellAt g r' 0) = true
  hhdrcell : ∀ c ∈ keptColsOf g, c ≠ 0 → hdrCellOkB (cellAt g hdr c) = true
  hhdrdiff : ∀ c ∈ keptColsOf g, ∀ c' ∈ keptColsOf g, c ≠ 0 → c' ≠ 0 → c ≠ c' →
    hdrNoMatchB (cellAt g hdr c) (cellAt g hdr c') = true
  hsetidx : dupFirstLabel ((keptColsOf g).map (fun c => cellAt g hdr c)) = false

/-- Indices of the rows the normalizer keeps. -/
def keptRowIdxD (g : Grid) : List Nat :=
  (List.range (nrows g)).filter (fun r => rowNonEmpty (padRow (ncols g) (g.getD r [])))

/-- Indices of the data rows (kept rows after the header). -/
def dataRowIdx (g : Grid) (hdr : Nat) : List Nat :=
  (List.range (nrows g)).filter
    (fun r => rowNonEmpty (padRow (ncols g) (g.getD r [])) && decide (hdr < r))

/-- Indices of the data rows whose identifier cell is present. -/
def dataRowIdx0 (g : Grid) (hdr : Nat) : List Nat :=
  (dataRowIdx g hdr).filter (fun r => !(cellAt g r 0).isNone)

/-- Indices of the kept data columns (kept columns other than 0). -/
def dataColsD (g : Grid) : List Nat :=
  (List.range (ncols g)).filter
    (fun c => (keptRowsOf g).any (fun row => !(row.getD c none).isNone) && decide (0 < c))

/-- A kept row restricted to the kept columns, read from the grid. -/
def restrictRow (g : Grid) (r : Nat) : List Cell :=
  (keptColsOf g).map (fun c => cellAt g r c)

/-- The header value of a populated column (defaulted; the hypotheses
guarantee the cell is present wherever this is used). -/
def hdrValD (g : Grid) (hdr c : Nat) : Val := (cellAt g hdr c).getD (Val.str "")

/-- The identifier value of a data row (defaulted likewise). -/
def idValD (g : Grid) (r : Nat) : Val := (cellAt g r 0).getD (Val.str "")

/-- The row dict the normalizer builds for data row `r`. -/
def rowDictD (g : Grid) (hdr r : Nat) : List (String × Cell) :=
  (dataColsD g).map (fun c => (colHeaderKey (cellAt g hdr c), cellAt g r c))

theorem getD_map_d {α β : Type _} (f : α → β) (l : List α) (i : Nat) (d : α) :
    (l.map f).getD i (f d) = f (l.getD i d) := by
  rw [List.getD_eq_getElem?_getD, List.getD_eq_getElem?_getD, List.getElem?_map]
  cases l[i]? <;> rfl

theorem filter_eq_map_getD {α : Type _} (l : List α) (d : α) (p : α → Bool) :
    l.filter p = ((List.range l.length).filter (fun i => p (l.getD i d))).map
      (fun i => l.getD i d) := by
  induction l with
  | nil => rfl
  | cons a t ih =>
    rw [List.filter_cons, List.length_cons, List.range_succ_eq_map, List.filter_cons,
      List.getD_cons_zero, List.filter_map]
    have hcomp : ((fun i => p ((a :: t).getD i d)) ∘ Nat.succ) = fun i => p (t.getD i d) := by
      funext i
      rfl
    have hcomp2 : ((fun i => (a :: t).getD i d) ∘ Nat.succ) = fun i => t.getD i d := by
      funext i
      rfl
    rw [hcomp]
    by_cases hp : p a
    · rw [if_pos hp, if_pos hp, List.map_cons, List.map_map, List.getD_cons_zero,
        hcomp2, ← ih]
    · rw [if_neg hp, if_neg hp, List.map_map, hcomp2, ← ih]

theorem anyb_congr {α : Type _} {l : List α} {p q : α → Bool}
    (h : ∀ a ∈ l, p a = q a) : l.any p = l.any q := by
  induction l with
  | nil => rfl
  | cons a t ih =>
    rw [List.any_cons, List.any_cons, h a (List.mem_cons_self _ _),
      ih (fun x hx => h x (List.mem_cons_of_mem _ hx))]

theorem RoundTripOk.hdr_lt {g : Grid} {hdr : Nat} (H : RoundTripOk g hdr) :
    hdr < nrows g := by
  have := List.mem_of_find?_eq_some H.hhdr
  exact List.mem_range.mp this

theorem RoundTripOk.rowpred_eq {g : Grid} {hdr : Nat} (H : RoundTripOk g hdr)
    (r : Nat) (hr : r < nrows g) :
    rowNonEmpty (padRow (ncols g) (g.getD r [])) =
      (List.range (ncols g)).any (fun c => cellNonBlank (cellAt g r c)) := by
  unfold rowNonEmpty
  rw [any_eq_range_any, padRow_length (ncols g) _ (row_length_le_ncols g r)]
  apply anyb_congr
  intro c hc
  have hcw := List.mem_range.mp hc
  unfold padRow
  rw [getD_append_replicate_none]
  show (!(cellAt g r c).isNone) = cellNonBlank (cellAt g r c)
  rw [H.hblank r hr c hcw]

theorem RoundTripOk.hdr_nonEmpty {g : Grid} {hdr : Nat} (H : RoundTripOk g hdr) :
    rowNonEmpty (padRow (ncols g) (g.getD hdr [])) = true := by
  rw [H.rowpred_eq hdr H.hdr_lt]
  exact (find?_range_spec _ _ _ H.hhdr).1

theorem RoundTripOk.below_empty {g : Grid} {hdr : Nat} (H : RoundTripOk g hdr)
    (k : Nat) (hk : k < hdr) :
    rowNonEmpty (padRow (ncols g) (g.getD k [])) = false := by
  rw [H.rowpred_eq k (lt_trans hk H.hdr_lt)]
  exact (find?_range_spec _ _ _ H.hhdr).2 k hk

theorem RoundTripOk.keptRowIdx_eq {g : Grid} {hdr : Nat} (H : RoundTripOk g hdr) :
    keptRowIdxD g = hdr :: dataRowIdx g hdr := by
  unfold keptRowIdxD dataRowIdx
  exact filter_range_eq_cons (nrows g) _ hdr H.hdr_lt H.hdr_nonEmpty H.below_empty

theorem keptRows_eq_map (g : Grid) :
    keptRowsOf g = (keptRowIdxD g).map (fun r => padRow (ncols g) (g.getD r [])) := by
  unfold keptRowsOf keptRowIdxD
  rw [filter_eq_map_getD (g.map (padRow (ncols g))) (padRow (ncols g) []) rowNonEmpty]
  rw [List.length_map]
  have h1 : (fun i => rowNonEmpty ((g.map (padRow (ncols g))).getD i (padRow (ncols g) []))) =
      fun i => rowNonEmpty (padRow (ncols g) (g.getD i [])) := by
    funext i
    rw [getD_map_d]
  have h2 : (fun i => (g.map (padRow (ncols g))).getD i (padRow (ncols g) [])) =
      fun i => padRow (ncols g) (g.getD i []) := by
    funext i
    rw [getD_map_d]
  rw [h1, h2]
  rfl

theorem cleanGrid_eq_map (g : Grid) :
    cleanGrid g = (keptRowIdxD g).map (restrictRow g) := by
  unfold cleanGrid restrictRow
  rw [keptRows_eq_map, List.map_map]
  apply List.map_congr_left
  intro r _
  show (keptColsOf g).map (fun c => (padRow (ncols g) (g.getD r [])).getD c none) = _
  apply List.map_congr_left
  intro c _
  unfold padRow
  rw [getD_append_replicate_none]
  rfl

theorem RoundTripOk.ncols_pos {g : Grid} {hdr : Nat} (H : RoundTripOk g hdr) :
    ∃ rw0, hdr < rw0 ∧ rw0 < nrows g ∧ (cellAt g rw0 0).isNone = false ∧ 0 < ncols g := by
  have hcond : ((List.range (nrows g)).any
      (fun r => decide (hdr < r) && decide (r ≤ hdr + 9) && !(cellAt g r 0).isNone)) = true := by
    by_contra hfalse
    have : rowNameColIdx g hdr = 1 := by
      unfold rowNameColIdx
      rw [if_neg hfalse]
    rw [H.hrnc] at this
    cases this
  rcases List.any_eq_true.mp hcond with ⟨r, hr, hpr⟩
  have hr' := List.mem_range.mp hr
  have h1 : hdr < r := of_decide_eq_true (Bool.and_elim_left (Bool.and_elim_left hpr))
  have h3 : (cellAt g r 0).isNone = false := by
    have := Bool.and_elim_right hpr
    cases hnn : (cellAt g r 0).isNone
    · rfl
    · rw [hnn] at this
      cases this
  refine ⟨r, h1, hr', h3, ?_⟩
  have hlen : 0 < (g.getD r []).length := by
    by_contra hl
    push_neg at hl
    have : (g.getD r []).length = 0 := by omega
    have hnone : cellAt g r 0 = none := by
      unfold cellAt
      exact getD_eq_none_of_le _ 0 (by omega)
    rw [hnone] at h3
    cases h3
  exact lt_of_lt_of_le hlen (row_length_le_ncols g r)

theorem getD_mem_of_lt (l : List Cell) (i : Nat) (h : i < l.length) :
    l.getD i none ∈ l := by
  rw [List.getD_eq_getElem?_getD, List.getElem?_eq_getElem h]
  exact List.getElem_mem h

theorem padRow_getD (g : Grid) (r c : Nat) :
    (padRow (ncols g) (g.getD r [])).getD c none = cellAt g r c := by
  unfold padRow
  rw [getD_append_replicate_none]
  rfl

theorem RoundTripOk.keptCols_eq {g : Grid} {hdr : Nat} (H : RoundTripOk g hdr) :
    keptColsOf g = 0 :: dataColsD g := by
  unfold keptColsOf dataColsD
  rcases H.ncols_pos with ⟨rw0, hlt, hrn, hpres, hw⟩
  apply filter_range_eq_cons (ncols g) _ 0 hw
  · rw [List.any_eq_true]
    refine ⟨padRow (ncols g) (g.getD rw0 []), ?_, ?_⟩
    · rw [keptRows_eq_map, List.mem_map]
      refine ⟨rw0, ?_, rfl⟩
      unfold keptRowIdxD
      rw [List.mem_filter]
      refine ⟨List.mem_range.mpr hrn, ?_⟩
      rw [H.rowpred_eq rw0 hrn, List.any_eq_true]
      refine ⟨0, List.mem_range.mpr hw, ?_⟩
      rw [H.hblank rw0 hrn 0 hw, hpres]
      rfl
    · rw [padRow_getD, hpres]
      rfl
  · intro k hk
    omega

theorem getD_map_lt {α β : Type _} (F : α → β) (l : List α) (i : Nat) (d : β) (d' : α)
    (h : i < l.length) : (l.map F).getD i d = F (l.getD i d') := by
  rw [List.getD_eq_getElem?_getD, List.getElem?_map, List.getElem?_eq_getElem h,
    List.getD_eq_getElem?_getD, List.getElem?_eq_getElem h]
  rfl

theorem foldl_range_getD {α β : Type _} (l : List β) (d : β) (step : α → β → α) (init : α) :
    (List.range l.length).foldl (fun a i => step a (l.getD i d)) init = l.foldl step init := by
  induction l generalizing init with
  | nil => rfl
  | cons b t ih =>
    rw [List.length_cons, List.range_succ_eq_map, List.foldl_cons, List.foldl_cons,
      List.getD_cons_zero, List.foldl_map]
    exact ih (step init b)

theorem dataCols_mem (g : Grid) (c : Nat) (hc : c ∈ dataColsD g) :
    c ∈ keptColsOf g ∧ 0 < c ∧ c < ncols g := by
  unfold dataColsD at hc
  have h1 := List.mem_filter.mp hc
  have h2 := List.mem_range.mp h1.1
  have h3 := h1.2
  refine ⟨?_, ?_, h2⟩
  · unfold keptColsOf
    rw [List.mem_filter]
    exact ⟨h1.1, Bool.and_elim_left h3⟩
  · exact of_decide_eq_true (Bool.and_elim_right h3)

theorem RoundTripOk.hdrCell_some {g : Grid} {hdr : Nat} (H : RoundTripOk g hdr)
    (c : Nat) (hc : c ∈ dataColsD g) :
    cellAt g hdr c = some (hdrValD g hdr c) ∧ intOrStrB (hdrValD g hdr c) = true := by
  obtain ⟨hkept, hpos, _⟩ := dataCols_mem g c hc
  have := H.hhdrcell c hkept (by omega)
  unfold hdrCellOkB at this
  unfold hdrValD
  cases hcell : cellAt g hdr c with
  | none => rw [hcell] at this; cases this
  | some v =>
    rw [hcell] at this
    exact ⟨rfl, this⟩

theorem RoundTripOk.keyEq_of_pyStr {g : Grid} {hdr : Nat} (H : RoundTripOk g hdr)
    (c c' : Nat) (hc : c ∈ dataColsD g) (hc' : c' ∈ dataColsD g) (hne : c ≠ c')
    (heq : colHeaderKey (cellAt g hdr c) = colHeaderKey (cellAt g hdr c')) : False := by
  obtain ⟨hsome, hint⟩ := H.hdrCell_some c hc
  obtain ⟨hsome', hint'⟩ := H.hdrCell_some c' hc'
  have hdiff := H.hhdrdiff c (dataCols_mem g c hc).1 c' (dataCols_mem g c' hc').1
    (by have := (dataCols_mem g c hc).2.1; omega)
    (by have := (dataCols_mem g c' hc').2.1; omega) hne
  rw [hsome, hsome'] at hdiff
  simp only [hdrNoMatchB] at hdiff
  rw [hsome, hsome'] at heq
  simp only [colHeaderKey] at heq
  have hnorm : normalize_col_name (hdrValD g hdr c) = normalize_col_name (hdrValD g hdr c') := by
    rw [← normalize_pyStr _ hint, heq, normalize_pyStr _ hint']
  rw [show colNamesMatch (normalize_col_name (hdrValD g hdr c))
      (normalize_col_name (hdrValD g hdr c')) = true from by
    unfold colNamesMatch
    rw [hnorm]
    simp] at hdiff
  cases hdiff

theorem RoundTripOk.hdrKeys_nodup {g : Grid} {hdr : Nat} (H : RoundTripOk g hdr) :
    ((dataColsD g).map (fun c => colHeaderKey (cellAt g hdr c))).Nodup := by
  rw [List.Nodup, List.pairwise_map]
  have hlt : (dataColsD g).Pairwise (· < ·) := by
    unfold dataColsD
    exact List.Pairwise.sublist (List.filter_sublist _) (List.pairwise_lt_range (ncols g))
  have hmem : ∀ x ∈ dataColsD g, x ∈ dataColsD g := fun x hx => hx
  refine List.Pairwise.imp_of_mem ?_ hlt
  intro a b ha hb hab
  exact fun heq => H.keyEq_of_pyStr a b ha hb (by omega) heq

theorem RoundTripOk.restrictRow_length {g : Grid} {hdr : Nat} (H : RoundTripOk g hdr)
    (r : Nat) : (restrictRow g r).length = (dataColsD g).length + 1 := by
  unfold restrictRow
  rw [List.length_map, H.keptCols_eq, List.length_cons]

theorem RoundTripOk.restrictRow_getD_succ {g : Grid} {hdr : Nat} (H : RoundTripOk g hdr)
    (r i : Nat) (hi : i < (dataColsD g).length) :
    (restrictRow g r).getD (i + 1) none = cellAt g r ((dataColsD g).getD i 0) := by
  unfold restrictRow
  rw [H.keptCols_eq, List.map_cons, List.getD_cons_succ]
  exact getD_map_lt _ _ _ _ 0 hi

theorem RoundTripOk.restrictRow_getD_zero {g : Grid} {hdr : Nat} (H : RoundTripOk g hdr)
    (r : Nat) : (restrictRow g r).getD 0 none = cellAt g r 0 := by
  unfold restrictRow
  rw [H.keptCols_eq, List.map_cons, List.getD_cons_zero]

theorem RoundTripOk.mkRowDict_eq {g : Grid} {hdr : Nat} (H : RoundTripOk g hdr) (r : Nat) :
    mkRowDict (restrictRow g hdr) (restrictRow g r) = rowDictD g hdr r := by
  unfold mkRowDict
  rw [H.restrictRow_length hdr, List.range_succ_eq_map, List.drop_succ_cons, List.drop_zero,
    List.foldl_map]
  have hstep : ∀ (d : List (String × Cell)) (i : Nat), i ∈ List.range (dataColsD g).length →
      dictInsert d (colHeaderKey ((restrictRow g hdr).getD (Nat.succ i) none))
        ((restrictRow g r).getD (Nat.succ i) none) =
      dictInsert d (colHeaderKey (cellAt g hdr ((dataColsD g).getD i 0)))
        (cellAt g r ((dataColsD g).getD i 0)) := by
    intro d i hi
    have hi' := List.mem_range.mp hi
    rw [H.restrictRow_getD_succ hdr i hi', H.restrictRow_getD_succ r i hi']
  rw [foldl_congr_mem _ _ _ _ hstep]
  rw [show (fun (d : List (String × Cell)) (i : Nat) =>
      dictInsert d (colHeaderKey (cellAt g hdr ((dataColsD g).getD i 0)))
        (cellAt g r ((dataColsD g).getD i 0))) =
      (fun (d : List (String × Cell)) (i : Nat) =>
        (fun (d' : List (String × Cell)) (c : Nat) =>
          dictInsert d' (colHeaderKey (cellAt g hdr c)) (cellAt g r c)) d
          ((dataColsD g).getD i 0)) from rfl]
  rw [foldl_range_getD (dataColsD g) 0
    (fun (d' : List (String × Cell)) (c : Nat) =>
      dictInsert d' (colHeaderKey (cellAt g hdr c)) (cellAt g r c)) []]
  rw [foldl_dictInsert_keyed_eq_append (dataColsD g)
    (fun c => colHeaderKey (cellAt g hdr c)) (fun c => cellAt g r c) []
    (by simp [dictKeys]) H.hdrKeys_nodup]
  rfl

theorem RoundTripOk.idCell_facts {g : Grid} {hdr : Nat} (H : RoundTripOk g hdr)
    (r : Nat) (hr : r ∈ dataRowIdx0 g hdr) :
    cellAt g r 0 = some (idValD g r) ∧ hdr < r ∧ r < nrows g ∧
      intOrStrB (idValD g r) = true ∧ pyStrip (pyStr (idValD g r)) = pyStr (idValD g r) := by
  unfold dataRowIdx0 at hr
  have h1 := List.mem_filter.mp hr
  unfold dataRowIdx at h1
  have h2 := List.mem_filter.mp h1.1
  have hrn := List.mem_range.mp h2.1
  have hlt : hdr < r := of_decide_eq_true (Bool.and_elim_right h2.2)
  have hsome : cellAt g r 0 = some (idValD g r) := by
    unfold idValD
    cases hcell : cellAt g r 0 with
    | none => rw [hcell] at h1; cases h1.2
    | some v => rfl
  have hok := H.hid r hrn hlt
  rw [hsome] at hok
  simp only [idCellOkB] at hok
  exact ⟨hsome, hlt, hrn, Bool.and_elim_left hok,
    eq_of_beq (Bool.and_elim_right hok)⟩

theorem RoundTripOk.idKeys_nodup {g : Grid} {hdr : Nat} (H : RoundTripOk g hdr) :
    ((dataRowIdx0 g hdr).map (fun r => idKey (cellAt g r 0))).Nodup := by
  rw [List.Nodup, List.pairwise_map]
  have hlt : (dataRowIdx0 g hdr).Pairwise (· < ·) := by
    unfold dataRowIdx0 dataRowIdx
    exact List.Pairwise.sublist (List.filter_sublist _)
      (List.Pairwise.sublist (List.filter_sublist _) (List.pairwise_lt_range (nrows g)))
  refine List.Pairwise.imp_of_mem ?_ hlt
  intro a b ha hb hab heq
  obtain ⟨hsa, hlta, hna, _, _⟩ := H.idCell_facts a ha
  obtain ⟨hsb, hltb, hnb, _, _⟩ := H.idCell_facts b hb
  have hdiff := H.hiddiff a hna b hnb hlta hab
  rw [hsa, hsb] at hdiff
  simp only [diffKeyB] at hdiff
  rw [hsa, hsb] at heq
  simp only [idKey] at heq
  rw [heq] at hdiff
  simp at hdiff

theorem RoundTripOk.excel_to_json_eq {g : Grid} {hdr : Nat} (H : RoundTripOk g hdr) :
    excel_to_json g = some ((dataRowIdx0 g hdr).map
      (fun r => (idKey (cellAt g r 0), RowVal.obj (rowDictD g hdr r)))) := by
  have hclean : cleanGrid g = restrictRow g hdr :: (dataRowIdx g hdr).map (restrictRow g) := by
    rw [cleanGrid_eq_map, H.keptRowIdx_eq, List.map_cons]
  have hne : (restrictRow g hdr).isEmpty = false := by
    unfold restrictRow
    rw [H.keptCols_eq, List.map_cons]
    rfl
  have hdup : dupFirstLabel (restrictRow g hdr) = false := H.hsetidx
  unfold excel_to_json
  simp only [hclean, hne, hdup, Bool.false_eq_true, if_false]
  refine congrArg some ?_
  have hfilt : ((dataRowIdx g hdr).map (restrictRow g)).filter
      (fun row => !(row.getD 0 none).isNone) =
      (dataRowIdx0 g hdr).map (restrictRow g) := by
    rw [List.filter_map]
    unfold dataRowIdx0
    congr 1
    apply List.filter_congr
    intro r _
    simp only [Function.comp]
    rw [H.restrictRow_getD_zero]
  rw [hfilt]
  have hbody : ((dataRowIdx0 g hdr).map (restrictRow g)).foldl
      (fun res row => dictInsert res (idKey (row.getD 0 none))
        (RowVal.obj (mkRowDict (restrictRow g hdr) row))) [] =
      (dataRowIdx0 g hdr).foldl
        (fun res r => dictInsert res (idKey (cellAt g r 0))
          (RowVal.obj (rowDictD g hdr r))) [] := by
    rw [List.foldl_map]
    apply foldl_congr_mem
    intro acc r hr
    rw [H.restrictRow_getD_zero, H.mkRowDict_eq]
  rw [hbody]
  have := foldl_dictInsert_keyed_eq_append (dataRowIdx0 g hdr)
    (fun r => idKey (cellAt g r 0)) (fun r => RowVal.obj (rowDictD g hdr r)) []
    (by intro a ha; cases ha) H.idKeys_nodup
  simpa using this

theorem RoundTripOk.columnHeaders_eq {g : Grid} {hdr : Nat} (H : RoundTripOk g hdr) :
    columnHeaders g hdr 0 = (dataColsD g).map (fun c => (c, hdrValD g hdr c)) := by
  unfold columnHeaders
  rw [filterMap_eq_map_filter _
    (fun c => (keptRowsOf g).any (fun row => !(row.getD c none).isNone))
    (fun c => (c, hdrValD g hdr c)) _ ?_]
  · rw [List.filter_filter]
    unfold dataColsD
    rfl
  · intro c hc
    have hcf := List.mem_filter.mp hc
    have hcw := List.mem_range.mp hcf.1
    have hcpos : 0 < c := of_decide_eq_true hcf.2
    by_cases hq : ((keptRowsOf g).any (fun row => !(row.getD c none).isNone)) = true
    · have hcd : c ∈ dataColsD g := by
        unfold dataColsD
        rw [List.mem_filter]
        refine ⟨hcf.1, ?_⟩
        rw [hq, Bool.true_and]
        exact decide_eq_true hcpos
      obtain ⟨hsome, _⟩ := H.hdrCell_some c hcd
      have hnb := H.hblank hdr H.hdr_lt c hcw
      rw [hsome] at hnb
      simp only [cellNonBlank, Option.isNone, Bool.not_false] at hnb
      rw [hsome, if_pos hq]
      show (if (!pyStrip (pyStr (hdrValD g hdr c)) == "") = true
          then some (c, hdrValD g hdr c) else none) = some (c, hdrValD g hdr c)
      rw [hnb]
      simp
    · have hall : ∀ x ∈ keptRowsOf g, ¬(!Option.isNone (x.getD c none)) = true := by
        rw [← List.any_eq_false]
        exact Bool.eq_false_iff.mpr hq
      have hmem : padRow (ncols g) (g.getD hdr []) ∈ keptRowsOf g := by
        rw [keptRows_eq_map, List.mem_map]
        exact ⟨hdr, by rw [H.keptRowIdx_eq]; exact List.mem_cons_self _ _, rfl⟩
      have hthis := hall _ hmem
      rw [padRow_getD] at hthis
      have hnone : cellAt g hdr c = none := by
        cases hcell : cellAt g hdr c with
        | none => rfl
        | some v => rw [hcell] at hthis; simp at hthis
      rw [hnone, if_neg hq]

theorem RoundTripOk.dataRowIdx0_ne_nil {g : Grid} {hdr : Nat} (H : RoundTripOk g hdr) :
    dataRowIdx0 g hdr ≠ [] := by
  rcases H.ncols_pos with ⟨rw0, hlt, hrn, hpres, hw⟩
  intro hnil
  have hmem : rw0 ∈ dataRowIdx0 g hdr := by
    unfold dataRowIdx0 dataRowIdx
    rw [List.mem_filter, List.mem_filter]
    refine ⟨⟨List.mem_range.mpr hrn, ?_⟩, by rw [hpres]; rfl⟩
    rw [H.rowpred_eq rw0 hrn]
    rw [show ((List.range (ncols g)).any (fun c => cellNonBlank (cellAt g rw0 c))) = true from ?_]
    · rw [Bool.true_and]
      exact decide_eq_true hlt
    · rw [List.any_eq_true]
      refine ⟨0, List.mem_range.mpr hw, ?_⟩
      rw [H.hblank rw0 hrn 0 hw, hpres]
      rfl
  rw [hnil] at hmem
  cases hmem

theorem RoundTripOk.json_col_names_eq {g : Grid} {hdr : Nat} (H : RoundTripOk g hdr) :
    json_col_names ((dataRowIdx0 g hdr).map
      (fun r => (idKey (cellAt g r 0), RowVal.obj (rowDictD g hdr r)))) =
      (dataColsD g).map (fun c => colHeaderKey (cellAt g hdr c)) := by
  cases hl : dataRowIdx0 g hdr with
  | nil => exact absurd hl H.dataRowIdx0_ne_nil
  | cons r rest =>
    rw [List.map_cons]
    show dictKeys (rowDictD g hdr r) = _
    unfold dictKeys rowDictD
    rw [List.map_map]
    rfl

theorem RoundTripOk.json_to_col_eq {g : Grid} {hdr : Nat} (H : RoundTripOk g hdr) :
    json_to_col g hdr 0 ((dataColsD g).map (fun c => colHeaderKey (cellAt g hdr c))) =
      (dataColsD g).map (fun c => (colHeaderKey (cellAt g hdr c), c)) := by
  have hfind : ∀ c ∈ dataColsD g,
      (((dataColsD g).map (fun c => colHeaderKey (cellAt g hdr c))).find?
        (fun k => colNamesMatch (normalize_col_name (hdrValD g hdr c))
          (normalize_col_name (Val.str k)))) = some (colHeaderKey (cellAt g hdr c)) := by
    intro c hc
    obtain ⟨hsome, hint⟩ := H.hdrCell_some c hc
    apply find?_eq_some_of_unique
    · exact List.mem_map_of_mem _ hc
    · rw [hsome]
      show colNamesMatch (normalize_col_name (hdrValD g hdr c))
        (normalize_col_name (Val.str (pyStr (hdrValD g hdr c)))) = true
      rw [normalize_pyStr _ hint]
      unfold colNamesMatch
      rw [beq_self_eq_true]
      rfl
    · intro x hx hne
      rcases List.mem_map.mp hx with ⟨c', hc', rfl⟩
      have hcc : c' ≠ c := by
        intro he
        subst he
        exact hne rfl
      obtain ⟨hsome', hint'⟩ := H.hdrCell_some c' hc'
      rw [hsome']
      show colNamesMatch (normalize_col_name (hdrValD g hdr c))
        (normalize_col_name (Val.str (pyStr (hdrValD g hdr c')))) = false
      rw [normalize_pyStr _ hint']
      have hdiff := H.hhdrdiff c (dataCols_mem g c hc).1 c' (dataCols_mem g c' hc').1
        (by have := (dataCols_mem g c hc).2.1; omega)
        (by have := (dataCols_mem g c' hc').2.1; omega) (fun he => hcc he.symm)
      rw [hsome, hsome'] at hdiff
      simp only [hdrNoMatchB] at hdiff
      simpa using hdiff
  unfold json_to_col
  rw [H.columnHeaders_eq, List.foldl_map]
  rw [foldl_congr_mem _ (fun (m : List (String × Nat)) (c : Nat) =>
      dictInsert m (colHeaderKey (cellAt g hdr c)) c) _ _ ?_]
  · rw [foldl_dictInsert_keyed_eq_append (dataColsD g)
      (fun c => colHeaderKey (cellAt g hdr c)) (fun c => c) []
      (by intro a ha; cases ha) H.hdrKeys_nodup]
    rfl
  · intro m c hc
    show (match (((dataColsD g).map (fun c => colHeaderKey (cellAt g hdr c))).find?
        (fun k => colNamesMatch (normalize_col_name (hdrValD g hdr c))
          (normalize_col_name (Val.str k)))) with
      | some k => dictInsert m k c
      | none => m) = dictInsert m (colHeaderKey (cellAt g hdr c)) c
    rw [hfind c hc]

theorem RoundTripOk.rowKeys_eq {g : Grid} {hdr : Nat} (H : RoundTripOk g hdr) :
    (dataRowIdx0 g hdr).map (fun r => pyStr (idValD g r)) =
      (dataRowIdx0 g hdr).map (fun r => idKey (cellAt g r 0)) := by
  apply List.map_congr_left
  intro r hr
  obtain ⟨hsome, _, _, _, _⟩ := H.idCell_facts r hr
  rw [hsome]
  rfl

theorem RoundTripOk.row_table_eq {g : Grid} {hdr : Nat} (H : RoundTripOk g hdr) :
    row_name_to_row_idx g hdr 0 =
      (dataRowIdx0 g hdr).map (fun r => (pyStr (idValD g r), r)) := by
  rcases H.ncols_pos with ⟨rw0, _, _, _, hw⟩
  unfold row_name_to_row_idx
  rw [foldl_congr_mem _ (fun (m : List (String × Nat)) (r : Nat) =>
      if (decide (hdr < r) && !(cellAt g r 0).isNone) then
        dictInsert m (pyStr (idValD g r)) r else m) _ _ ?_]
  · rw [foldl_guarded]
    have hfeq : (List.range (nrows g)).filter
        (fun r => decide (hdr < r) && !(cellAt g r 0).isNone) = dataRowIdx0 g hdr := by
      unfold dataRowIdx0 dataRowIdx
      rw [List.filter_filter]
      apply List.filter_congr
      intro r hrn
      have hrn2 := List.mem_range.mp hrn
      cases hnn : (cellAt g r 0).isNone with
      | true => simp [hnn]
      | false =>
        cases hlt : decide (hdr < r) with
        | false => simp [hlt]
        | true =>
          have hre : rowNonEmpty (padRow (ncols g) (g.getD r [])) = true := by
            rw [H.rowpred_eq r hrn2, List.any_eq_true]
            refine ⟨0, List.mem_range.mpr hw, ?_⟩
            rw [H.hblank r hrn2 0 hw, hnn]
            rfl
          rw [List.getD_eq_getElem?_getD] at hre
          simp [hre, hnn, hlt]
    rw [hfeq]
    rw [foldl_dictInsert_keyed_eq_append (dataRowIdx0 g hdr)
      (fun r => pyStr (idValD g r)) (fun r => r) []
      (by intro a ha; cases ha) (by rw [H.rowKeys_eq]; exact H.idKeys_nodup)]
    rfl
  · intro m r hr
    have hrn := List.mem_range.mp hr
    show (if hdr < r then
        match cellAt g r 0 with
        | some v => if (!pyStrip (pyStr v) == "") = true then
            dictInsert m (pyStrip (pyStr v)) r else m
        | none => m
      else m) =
      if (decide (hdr < r) && !(cellAt g r 0).isNone) = true then
        dictInsert m (pyStr (idValD g r)) r else m
    by_cases hlt : hdr < r
    · rw [if_pos hlt]
      cases hcell : cellAt g r 0 with
      | none => rw [if_neg (by simp)]
      | some v =>
        have hok := H.hid r hrn hlt
        rw [hcell] at hok
        simp only [idCellOkB] at hok
        have hstrip : pyStrip (pyStr v) = pyStr v := eq_of_beq (Bool.and_elim_right hok)
        have hnb := H.hblank r hrn 0 hw
        rw [hcell] at hnb
        simp only [cellNonBlank, Option.isNone, Bool.not_false] at hnb
        have hval : idValD g r = v := by
          unfold idValD
          rw [hcell]
          rfl
        have hnb2 : (pyStr v == "") = false := by
          rw [hstrip] at hnb
          cases hbe : (pyStr v == "") with
          | false => rfl
          | true => rw [hbe] at hnb; cases hnb
        simp [hnb2, hval, hstrip, hlt]
    · rw [if_neg hlt]
      rw [if_neg (by simp [hlt])]

theorem foldl_inv {α β : Type _} (P : α → Prop) (f : α → β → α) (l : List β) (init : α)
    (hinit : P init) (hstep : ∀ a b, b ∈ l → P a → P (f a b)) : P (l.foldl f init) := by
  induction l generalizing init with
  | nil => exact hinit
  | cons b t ih =>
    rw [List.foldl_cons]
    exact ih (f init b) (hstep init b (List.mem_cons_self _ _) hinit)
      (fun a b' hb' => hstep a b' (List.mem_cons_of_mem _ hb'))

/-- Writing back a cell's own value keeps the grid pointwise equal to the
reference grid. -/
theorem setCell_keeps {g acc : Grid} {r c : Nat}
    (hinv : ∀ r' c', cellAt acc r' c' = cellAt g r' c') (hlen : acc.length = g.length)
    (hr : r < g.length) :
    (∀ r' c', cellAt (setCell acc r c (cellAt g r c)) r' c' = cellAt g r' c') ∧
      (setCell acc r c (cellAt g r c)).length = g.length := by
  constructor
  · intro r' c'
    by_cases hrr : r' = r
    · by_cases hcc : c' = c
      · subst hrr
        subst hcc
        rw [cellAt_setCell_self acc r' c' _ (by omega)]
      · rw [cellAt_setCell_ne _ _ _ _ _ _ (Or.inr hcc)]
        exact hinv r' c'
    · rw [cellAt_setCell_ne _ _ _ _ _ _ (Or.inl hrr)]
      exact hinv r' c'
  · unfold setCell
    rw [List.length_set]
    exact hlen

/-- Writing one record row whose values are the reference grid's own cells
keeps the grid pointwise equal to the reference grid. -/
theorem writeRow_keeps (colMap : List (String × Nat)) (r : Nat)
    (m : List (String × Cell)) (g acc : Grid) (hr : r < g.length)
    (hval : ∀ p ∈ m, ∀ c, dictLookup colMap p.1 = some c → p.2 = cellAt g r c)
    (hinv : ∀ r' c', cellAt acc r' c' = cellAt g r' c') (hlen : acc.length = g.length) :
    (∀ r' c', cellAt (writeRow colMap r m acc) r' c' = cellAt g r' c') ∧
      (writeRow colMap r m acc).length = g.length := by
  unfold writeRow
  refine foldl_inv (fun a => (∀ r' c', cellAt a r' c' = cellAt g r' c') ∧
      a.length = g.length) _ m acc ⟨hinv, hlen⟩ ?_
  intro a p hp ⟨ha, halen⟩
  cases hlook : dictLookup colMap p.1 with
  | none => exact ⟨ha, halen⟩
  | some c =>
    show (∀ r' c', cellAt (setCell a r c p.2) r' c' = cellAt g r' c') ∧
      (setCell a r c p.2).length = g.length
    rw [hval p hp c hlook]
    exact setCell_keeps ha halen hr

theorem roundtrip_main {g : Grid} {hdr : Nat} (H : RoundTripOk g hdr) {rec : Record}
    (hrec : excel_to_json g = some rec) (r c : Nat) :
    cellAt (json_to_excel_template rec g) r c = cellAt g r c := by
  have hrec2 : rec = (dataRowIdx0 g hdr).map
      (fun r => (idKey (cellAt g r 0), RowVal.obj (rowDictD g hdr r))) := by
    have h := H.excel_to_json_eq
    rw [hrec] at h
    exact Option.some.inj h
  subst hrec2
  have hne : ((dataRowIdx0 g hdr).map
      (fun r => (idKey (cellAt g r 0), RowVal.obj (rowDictD g hdr r)))).isEmpty = false := by
    cases hl : dataRowIdx0 g hdr with
    | nil => exact absurd hl H.dataRowIdx0_ne_nil
    | cons a t => rfl
  unfold json_to_excel_template
  simp only [hne, Bool.false_eq_true, if_false, H.hhdr, H.hrnc]
  rw [H.json_col_names_eq, H.json_to_col_eq, H.row_table_eq, List.foldl_map]
  refine (foldl_inv (fun a => (∀ r' c', cellAt a r' c' = cellAt g r' c') ∧
      a.length = g.length) _ _ g ⟨fun _ _ => rfl, rfl⟩ ?_).1 r c
  intro a rr hrr hP
  obtain ⟨ha, halen⟩ := hP
  obtain ⟨hsome, hlt, hrn, _, _⟩ := H.idCell_facts rr hrr
  have hkey : idKey (cellAt g rr 0) = pyStr (idValD g rr) := by
    rw [hsome]
    rfl
  have hlook : dictLookup ((dataRowIdx0 g hdr).map (fun r => (pyStr (idValD g r), r)))
      (pyStr (idValD g rr)) = some rr :=
    lookup_map_key _ _ _ rr hrr (by rw [H.rowKeys_eq]; exact H.idKeys_nodup)
  have hres : resolveRowIdx ((dataRowIdx0 g hdr).map (fun r => (pyStr (idValD g r), r)))
      (idKey (cellAt g rr 0)) = some rr := by
    unfold resolveRowIdx
    rw [hkey, hlook]
  simp only [hres]
  refine writeRow_keeps _ rr (rowDictD g hdr rr) g a hrn ?_ ha halen
  intro p hp c' hc'
  rcases List.mem_map.mp hp with ⟨c0, hc0, rfl⟩
  rw [lookup_map_key (dataColsD g) (fun c => colHeaderKey (cellAt g hdr c))
    (fun c => c) c0 hc0 H.hdrKeys_nodup] at hc'
  cases hc'
  rfl

/-- **C2** (corrected).  When normalization succeeds (returns a record
rather than raising), rehydrating a template with its own normalization
reproduces every cell of the original template, under the `RoundTripOk`
side conditions: both components agree on the header row and on column 0
as the identifier column, no cell is whitespace-only text, identifier
cells are int-or-text scalars with strip-invariant and pairwise distinct
string forms, header cells of populated columns are present int-or-text
scalars that are pairwise unambiguous under the rehydrator's
column-matching rule, and the identifier column's header label is not
repeated (so `set_index` does not raise).  Without these conditions the
claim is false (see the counterexample, where two row labels differing
only by a trailing space make the round trip change a cell). -/
theorem rehydrate_normalize_roundtrip (g : Grid) (hdr : Nat) (H : RoundTripOk g hdr)
    (rec : Record) (hrec : excel_to_json g = some rec) (r c : Nat) :
    cellAt (json_to_excel_template rec g) r c = cellAt g r c :=
  roundtrip_main H hrec r c

/-- Counterexample to the literal claim C2: row labels `"Total"` and
`"Total "` collapse in the rehydrator's trimmed row table, so the round
trip overwrites the populated cell at row 2, column 1, changing its value
from 7 to 5. -/
theorem rehydrate_normalize_changes_cell :
    excel_to_json [[some (Val.str "Name"), some (Val.str "A")],
        [some (Val.str "Total"), some (Val.int 5)],
        [some (Val.str "Total "), some (Val.int 7)]] =
      some [("Total", RowVal.obj [("A", some (Val.int 5))]),
            ("Total ", RowVal.obj [("A", some (Val.int 7))])] ∧
    cellAt (json_to_excel_template
      [("Total", RowVal.obj [("A", some (Val.int 5))]),
       ("Total ", RowVal.obj [("A", some (Val.int 7))])]
      [[some (Val.str "Name"), some (Val.str "A")],
        [some (Val.str "Total"), some (Val.int 5)],
        [some (Val.str "Total "), some (Val.int 7)]]) 2 1 = some (Val.int 5) ∧
    cellAt [[some (Val.str "Name"), some (Val.str "A")],
        [some (Val.str "Total"), some (Val.int 5)],
        [some (Val.str "Total "), some (Val.int 7)]] 2 1 = some (Val.int 7) := by
  refine ⟨?_, ?_, ?_⟩
  · decide
  · decide
  · decide

theorem rehydrate_normalize_roundtrip_witness :
    cellAt (json_to_excel_template
      [("Alpha", RowVal.obj [("Revenue", some (Val.int 10))]),
       ("Beta", RowVal.obj [("Revenue", some (Val.int 2024))])]
      [[some (Val.str "Name"), some (Val.str "Revenue")],
        [some (Val.str "Alpha"), some (Val.int 10)],
        [some (Val.str "Beta"), some (Val.int 2024)]]) 2 1 =
    cellAt [[some (Val.str "Name"), some (Val.str "Revenue")],
        [some (Val.str "Alpha"), some (Val.int 10)],
        [some (Val.str "Beta"), some (Val.int 2024)]] 2 1 :=
  rehydrate_normalize_roundtrip _ 0
    ⟨by decide, by decide, by decide, by decide, by decide, by decide, by decide, by decide⟩
    [("Alpha", RowVal.obj [("Revenue", some (Val.int 10))]),
     ("Beta", RowVal.obj [("Revenue", some (Val.int 2024))])] (by decide) 2 1
